import Mathlib

/-!
Verification development for the schema-mapper core (mcpintegra).

The TypeScript sources are shallowly embedded:

* JavaScript runtime values are `JSValue`; objects and arrays live on an
  explicit heap (`Heap`, addressed by `Nat`), so reference sharing and
  in-place mutation of the transformation engine are modelled faithfully.
* JavaScript numbers are modelled as exact decimal rationals `QD`
  (`n / 10 ^ e` in canonical form, plus signed infinities for
  `parseFloat("Infinity")`); the claims settled here never depend on binary
  floating-point rounding, and every value the embedded code constructs is
  decadic.
* Stateful methods become explicit state passing (`St`); code that throws
  returns `Except String` or an explicit error component.
* `MappingService` / `SchemaService` are pure and embedded as plain
  functions; `StorageService` carries its process-wide state in
  `StorageState`, with the abstract durable store an explicit input
  (`FsOutcome` tells a write attempt's result, the stored image is kept
  already parsed, mirroring the abstract load/save contract).
* String primitives (`split`, `toLowerCase`, `replace`, `trim`, `join`) are
  given executable list-level definitions mirroring their JS behaviour on
  the ASCII inputs the system handles.
-/

/-- `10 ^ e` as an integer. -/
def pow10 (e : Nat) : Int :=
  Int.ofNat (10 ^ e)

/-- Exact decimal rationals: the value `n / 10 ^ e`, kept canonical
(`e = 0` or `10 ∤ n`), the number domain of the embedded JavaScript. -/
structure QD where
  n : Int
  e : Nat
deriving DecidableEq, Repr

/-- Canonicalize `n / 10 ^ e` by stripping factors of ten. -/
def QD.norm : Int → Nat → QD
  | n, 0 => ⟨n, 0⟩
  | n, e + 1 => if n % 10 = 0 then QD.norm (n / 10) e else ⟨n, e + 1⟩

def QD.ofNat (n : Nat) : QD := ⟨n, 0⟩

instance (n : Nat) : OfNat QD n := ⟨⟨n, 0⟩⟩

instance : OfScientific QD :=
  ⟨fun m b e => if b then QD.norm m e else ⟨(m : Int) * pow10 e, 0⟩⟩

instance : Neg QD := ⟨fun a => ⟨-a.n, a.e⟩⟩

instance : Add QD := ⟨fun a b => QD.norm (a.n * pow10 b.e + b.n * pow10 a.e) (a.e + b.e)⟩

instance : Mul QD := ⟨fun a b => QD.norm (a.n * b.n) (a.e + b.e)⟩

instance : LE QD := ⟨fun a b => a.n * pow10 b.e ≤ b.n * pow10 a.e⟩

instance (a b : QD) : Decidable (a ≤ b) :=
  inferInstanceAs (Decidable (a.n * pow10 b.e ≤ b.n * pow10 a.e))

/-- `Math.min`. -/
instance : Min QD := ⟨fun a b => if a ≤ b then a else b⟩

/-- JavaScript numbers: finite values as decimal rationals, plus the signed
infinities produced by `parseFloat("Infinity")`.  (NaN never needs to be
stored: every embedded code path checks `isNaN` right at the producing
call, which the embedding models with `Option`.) -/
inductive JSNum where
  | fin (q : QD)
  | posInf
  | negInf
deriving DecidableEq, Repr

/-- JavaScript runtime values.  Objects and arrays are heap references so
that aliasing through `getNestedValue`/`setNestedValue` is observable. -/
inductive JSValue where
  | str (s : String)
  | num (n : JSNum)
  | bool (b : Bool)
  | null
  | undef
  | ref (a : Nat)
deriving DecidableEq, Repr

/-- A heap cell: a plain object (insertion-ordered fields) or an array
(elements plus non-index properties). -/
inductive HeapCell where
  | obj (fields : List (String × JSValue))
  | arrCell (elems : List JSValue) (props : List (String × JSValue))
deriving DecidableEq, Repr

abbrev Heap := List (Nat × HeapCell)

/-- Mutable-state snapshot: the heap and the next fresh address. -/
structure St where
  heap : Heap
  next : Nat
deriving DecidableEq, Repr

/-- Constructor-wise decidable equality for `Except` results. -/
instance {ε α : Type} [DecidableEq ε] [DecidableEq α] : DecidableEq (Except ε α) := fun a b =>
  match a, b with
  | .error e1, .error e2 => if h : e1 = e2 then isTrue (by rw [h]) else isFalse (by simp [h])
  | .error _, .ok _ => isFalse (by simp)
  | .ok _, .error _ => isFalse (by simp)
  | .ok v1, .ok v2 => if h : v1 = v2 then isTrue (by rw [h]) else isFalse (by simp [h])

/-- First-match association lookup (JS objects have unique keys; the heap
has unique addresses). -/
def lookupA {α β : Type} [DecidableEq α] (k : α) : List (α × β) → Option β
  | [] => none
  | (k1, v) :: rest => if k1 = k then some v else lookupA k rest

/-- `o[key] = v` on an insertion-ordered field list: overwrite in place,
else append (JS property-creation order). -/
def objSet {α β : Type} [DecidableEq α] (fs : List (α × β)) (key : α) (v : β) :
    List (α × β) :=
  match fs with
  | [] => [(key, v)]
  | (k1, v1) :: rest => if k1 = key then (key, v) :: rest else (k1, v1) :: objSet rest key v

/-- Replace the cell at address `a` (the address is always present when
called from the embedded code). -/
def heapSet (h : Heap) (a : Nat) (c : HeapCell) : Heap :=
  objSet h a c

/-- Allocate a fresh cell, returning its address. -/
def St.alloc (st : St) (c : HeapCell) : Nat × St :=
  (st.next, ⟨(st.next, c) :: st.heap, st.next + 1⟩)

/-- Every allocated address is below the allocation counter. -/
def St.WF (st : St) : Prop :=
  ∀ p ∈ st.heap, p.1 < st.next

instance (st : St) : Decidable st.WF := by
  unfold St.WF; infer_instance

/-- JavaScript truthiness. -/
def jsTruthy : JSValue → Bool
  | .str s => s ≠ ""
  | .num (.fin q) => q ≠ 0
  | .num _ => true
  | .bool b => b
  | .null => false
  | .undef => false
  | .ref _ => true

/-- Decimal digit list to `Nat`. -/
def digitsToNat (l : List Char) : Nat :=
  l.foldl (fun acc c => acc * 10 + (c.toNat - 48)) 0

/-- The digit character of `d < 10`. -/
def digitChar (d : Nat) : Char :=
  Char.ofNat (48 + d)

/-- Decimal digits of `n` (fuel-based, `fuel ≥ 1` suffices up to `10^fuel`). -/
def natToStrAux : Nat → Nat → List Char
  | 0, _ => []
  | fuel + 1, n =>
    if n < 10 then [digitChar n]
    else natToStrAux fuel (n / 10) ++ [digitChar (n % 10)]

/-- Decimal numeral of a natural. -/
def natToStr (n : Nat) : String :=
  String.mk (natToStrAux (n + 1) n)

/-- The canonical array-index strings `"0", "1", …` (the 2^32 bound of real
JS indices is not modelled; no embedded input approaches it). -/
def canonicalIndex (s : String) : Option Nat :=
  match s.toList with
  | [] => none
  | c :: rest =>
    if (c :: rest).all Char.isDigit ∧ (c = '0' → rest = []) then
      some (digitsToNat (c :: rest))
    else none

/-- Property read `v[key]` as used by the embedded code (string primitives
expose `length` and characters; other primitives yield `undefined`;
prototype-chain properties are not modelled). -/
def jsIndex (st : St) (v : JSValue) (key : String) : JSValue :=
  match v with
  | .ref a =>
    match lookupA a st.heap with
    | some (.obj fs) => (lookupA key fs).getD .undef
    | some (.arrCell es ps) =>
      if key = "length" then .num (.fin (QD.ofNat es.length))
      else
        match canonicalIndex key with
        | some i => (es[i]?).getD .undef
        | none => (lookupA key ps).getD .undef
    | none => .undef
  | .str s =>
    if key = "length" then .num (.fin (QD.ofNat s.length))
    else
      match canonicalIndex key with
      | some i =>
        match s.toList[i]? with
        | some c => .str (String.mk [c])
        | none => .undef
      | none => .undef
  | _ => (.undef)

/-- The `in` operator: throws a TypeError on non-objects (strict mode). -/
def jsHasProp (st : St) (v : JSValue) (key : String) : Except String Bool :=
  match v with
  | .ref a =>
    match lookupA a st.heap with
    | some (.obj fs) => .ok (lookupA key fs).isSome
    | some (.arrCell es ps) =>
      .ok ((key = "length" : Bool) ||
        (match canonicalIndex key with
         | some i => decide (i < es.length)
         | none => false) ||
        (lookupA key ps).isSome)
    | none => .ok false
  | _ => .error ("Cannot use 'in' operator to search for '" ++ key ++ "' in non-object")

/-- `es[i] = v` with JS extension semantics: out-of-range writes pad with
holes (read back as `undefined`). -/
def listSetPad (es : List JSValue) (i : Nat) (v : JSValue) : List JSValue :=
  if i < es.length then es.set i v
  else es ++ List.replicate (i - es.length) JSValue.undef ++ [v]

/-- Property write `tgt[key] = v`: mutates the heap cell; throws a
TypeError on primitives (strict mode, as the sources are ES modules). -/
def jsSetProp (st : St) (tgt : JSValue) (key : String) (v : JSValue) :
    Except String St :=
  match tgt with
  | .ref a =>
    match lookupA a st.heap with
    | some (.obj fs) => .ok { st with heap := heapSet st.heap a (.obj (objSet fs key v)) }
    | some (.arrCell es ps) =>
      if key = "length" then
        match v with
        | .num (.fin q) =>
          if q.e = 0 ∧ 0 ≤ q.n then
            let n := q.n.toNat
            let es2 := es.take n ++ List.replicate (n - es.length) JSValue.undef
            .ok { st with heap := heapSet st.heap a (.arrCell es2 ps) }
          else .error "Invalid array length"
        | _ => .error "Invalid array length"
      else
        match canonicalIndex key with
        | some i => .ok { st with heap := heapSet st.heap a (.arrCell (listSetPad es i v) ps) }
        | none => .ok { st with heap := heapSet st.heap a (.arrCell es (objSet ps key v)) }
    | none => .ok st
  | .null => .error "Cannot set properties of null"
  | .undef => .error "Cannot set properties of undefined"
  | _ => .error ("Cannot create property '" ++ key ++ "' on a primitive value")

/-- Left-pad a numeral with zeros to width `k`. -/
def padZeros (k : Nat) (n : Nat) : String :=
  let s := natToStr n
  String.mk (List.replicate (k - s.length) '0') ++ s

/-- Drop trailing `'0'` characters. -/
def trimTrailingZeros (s : String) : String :=
  String.mk (s.toList.reverse.dropWhile (fun c => c = '0')).reverse

/-- JS `Number`-to-string on the decadic values the embedded code produces
(integers bare, fractions in plain decimal; the exponent notation JS uses
beyond 1e21 and shortest-round-trip double printing are outside the values
any claim exercises). -/
def jsNumToString : JSNum → String
  | .posInf => "Infinity"
  | .negInf => "-Infinity"
  | .fin q =>
    let sign := if q.n < 0 then "-" else ""
    let m := q.n.natAbs
    if q.e = 0 then sign ++ natToStr m
    else
      sign ++ natToStr (m / 10 ^ q.e) ++ "." ++
        trimTrailingZeros (padZeros q.e (m % 10 ^ q.e))

/-- JS `String(v)` with explicit recursion fuel for arrays (an acyclic heap
never needs more than one unit per cell). -/
def jsToStringFuel (h : Heap) : Nat → JSValue → String
  | _, .str s => s
  | _, .num n => jsNumToString n
  | _, .bool true => "true"
  | _, .bool false => "false"
  | _, .null => "null"
  | _, .undef => "undefined"
  | 0, .ref _ => ""
  | fuel + 1, .ref a =>
    match lookupA a h with
    | some (.obj _) => "[object Object]"
    | some (.arrCell es _) =>
      String.mk (List.intercalate [','] (es.map fun e =>
        if e = JSValue.null ∨ e = JSValue.undef then []
        else (jsToStringFuel h fuel e).toList))
    | none => ""

/-- JS `String(v)` against a given state. -/
def jsToString (st : St) (v : JSValue) : String :=
  jsToStringFuel st.heap (st.heap.length + 1) v

/-- The whitespace `parseFloat` and `trim` skip. -/
def jsWhitespace (c : Char) : Bool :=
  c = ' ' ∨ c = '\t' ∨ c = '\n' ∨ c = '\r' ∨ c.toNat = 11 ∨ c.toNat = 12 ∨
    c.toNat = 0xA0 ∨ c.toNat = 0xFEFF ∨ c.toNat = 0x2028 ∨ c.toNat = 0x2029

/-- Exponent part of a decimal literal: consumed only when at least one
digit follows `e`/`E` (its optional sign included). -/
def parseExpPart : List Char → Int
  | '+' :: rest =>
    if rest.takeWhile Char.isDigit = [] then 0
    else digitsToNat (rest.takeWhile Char.isDigit)
  | '-' :: rest =>
    if rest.takeWhile Char.isDigit = [] then 0
    else -(digitsToNat (rest.takeWhile Char.isDigit) : Int)
  | rest =>
    if rest.takeWhile Char.isDigit = [] then 0
    else digitsToNat (rest.takeWhile Char.isDigit)

/-- `i / 10 ^ (-exp)` as a canonical decimal (`exp ≥ 0` scales up). -/
def QD.scale (i : Int) (exp : Int) : QD :=
  if 0 ≤ exp then ⟨i * pow10 exp.toNat, 0⟩ else QD.norm i (-exp).toNat

/-- JS `parseFloat`: skip whitespace, optional sign, then the longest
prefix that is a `StrDecimalLiteral` (digits, optional point and digits,
optional exponent) or `Infinity`; `none` is NaN (no numeric prefix).  The
value is the exact rational `mantissa * 10 ^ exponent`. -/
def jsParseFloat (s : String) : Option JSNum :=
  let cs := s.toList.dropWhile jsWhitespace
  let neg : Bool := match cs with | '-' :: _ => true | _ => false
  let cs := match cs with
    | '-' :: rest => rest
    | '+' :: rest => rest
    | _ => cs
  if cs.take 8 = "Infinity".toList then
    some (if neg then .negInf else .posInf)
  else
    let intDigits := cs.takeWhile Char.isDigit
    let cs1 := cs.drop intDigits.length
    let fracDigits :=
      match cs1 with
      | '.' :: rest => rest.takeWhile Char.isDigit
      | _ => []
    let cs2 :=
      match cs1 with
      | '.' :: rest => rest.drop fracDigits.length
      | _ => cs1
    if intDigits = [] ∧ fracDigits = [] then none
    else
      let expVal : Int :=
        match cs2 with
        | 'e' :: rest => parseExpPart rest
        | 'E' :: rest => parseExpPart rest
        | _ => 0
      let mantissa : Int := digitsToNat (intDigits ++ fracDigits)
      some (.fin (QD.scale (if neg then -mantissa else mantissa)
        (expVal - fracDigits.length)))

/-- `sep.isPrefixOf cs` on characters. -/
def listIsPrefix : List Char → List Char → Bool
  | [], _ => true
  | _ :: _, [] => false
  | p :: ps, c :: cs => p = c ∧ listIsPrefix ps cs

/-- JS `String.prototype.split` core: cut at every occurrence of `sep`
(left to right, non-overlapping); `fuel ≥ length` suffices. -/
def splitOnAuxL (sep : List Char) : Nat → List Char → List Char → List (List Char)
  | _, [], cur => [cur.reverse]
  | 0, cs, cur => [cur.reverse ++ cs]
  | fuel + 1, c :: rest, cur =>
    if listIsPrefix sep (c :: rest) then
      cur.reverse :: splitOnAuxL sep fuel ((c :: rest).drop sep.length) []
    else
      splitOnAuxL sep fuel rest (c :: cur)

/-- JS `s.split(sep)` for a non-empty separator (the embedded code never
splits on the empty string: path splitting uses `"."` and the `split`
transformation replaces a falsy separator by its default). -/
def strSplitOn (s sep : String) : List String :=
  if sep = "" then [s]
  else (splitOnAuxL sep.toList (s.toList.length + 1) s.toList []).map String.mk

/-- JS `parts.join(sep)`. -/
def strJoin (sep : String) (parts : List String) : String :=
  String.mk (List.intercalate sep.toList (parts.map String.toList))

/-- JS `s.replace(pat, repl)` with a global pattern. -/
def strReplaceAll (s pat repl : String) : String :=
  if pat = "" then s
  else strJoin repl (strSplitOn s pat)

/-- ASCII lower-casing (JS `toLowerCase`; the field names the system
handles are ASCII). -/
def charToLower (c : Char) : Char :=
  if 'A' ≤ c ∧ c ≤ 'Z' then Char.ofNat (c.toNat + 32) else c

def strToLower (s : String) : String :=
  String.mk (s.toList.map charToLower)

/-- JS `s.trim()`. -/
def strTrim (s : String) : String :=
  String.mk ((s.toList.dropWhile jsWhitespace).reverse.dropWhile jsWhitespace).reverse

/-- `pat` occurs contiguously in `cs` (JS `includes`). -/
def listIsInfix (pat : List Char) : List Char → Bool
  | [] => pat.isEmpty
  | c :: rest => listIsPrefix pat (c :: rest) || listIsInfix pat rest

/-- JS `a.includes(b)`. -/
def strIncludes (a b : String) : Bool :=
  listIsInfix b.toList a.toList

/-- Calendar parts of a parsed date string (proleptic Gregorian;
milliseconds included). -/
structure DateParts where
  year : Nat
  month : Nat
  day : Nat
  hour : Nat
  minute : Nat
  second : Nat
  ms : Nat
deriving DecidableEq, Repr

def isLeapYear (y : Nat) : Bool :=
  (y % 4 = 0 ∧ y % 100 ≠ 0) ∨ y % 400 = 0

def daysInMonth (y m : Nat) : Nat :=
  if m = 2 then (if isLeapYear y then 29 else 28)
  else if m = 4 ∨ m = 6 ∨ m = 9 ∨ m = 11 then 30
  else 31

/-- Read exactly `k` decimal digits. -/
def takeDigits (k : Nat) (cs : List Char) : Option (Nat × List Char) :=
  let ds := cs.take k
  if ds.length = k ∧ ds.all Char.isDigit then some (digitsToNat ds, cs.drop k)
  else none

/-- Literal character. -/
def expectChar (c : Char) : List Char → Option (List Char)
  | c1 :: rest => if c1 = c then some rest else none
  | [] => none

/-- Optional `":SS(.sss)?"` tail of a time. -/
def parseSecondPart (cs : List Char) : Option (Nat × Nat × List Char) :=
  match expectChar ':' cs with
  | none => some (0, 0, cs)
  | some cs => do
    let (sec, cs) ← takeDigits 2 cs
    match expectChar '.' cs with
    | none => some (sec, 0, cs)
    | some cs1 =>
      let ds := cs1.takeWhile Char.isDigit
      if ds.length = 0 ∨ ds.length > 3 then none
      else some (sec, digitsToNat ds * 10 ^ (3 - ds.length), cs1.drop ds.length)

/-- `new Date(String(v))` as the embedded code uses it, restricted to the
ISO-8601 forms `YYYY-MM-DD` and `YYYY-MM-DDTHH:MM(:SS(.sss)?)?(Z)?`: other
date spellings JS would accept (RFC 2822, six-digit years, numeric
timezone offsets, local-time interpretation of offset-less timestamps —
the last being host-dependent and treated as UTC here) are modelled as
invalid.  No claim exercises the date conversions. -/
def jsDateParse (s : String) : Option DateParts := do
  let cs := s.toList
  let (y, cs) ← takeDigits 4 cs
  let cs ← expectChar '-' cs
  let (mo, cs) ← takeDigits 2 cs
  let cs ← expectChar '-' cs
  let (d, cs) ← takeDigits 2 cs
  let parts ←
    match cs with
    | [] => some (DateParts.mk y mo d 0 0 0 0)
    | 'T' :: cs => do
      let (h, cs) ← takeDigits 2 cs
      let cs ← expectChar ':' cs
      let (mi, cs) ← takeDigits 2 cs
      let (sec, ms, cs) ← parseSecondPart cs
      let cs := match cs with | 'Z' :: rest => rest | _ => cs
      if cs = [] ∧ h ≤ 23 ∧ mi ≤ 59 ∧ sec ≤ 59 then
        some (DateParts.mk y mo d h mi sec ms)
      else none
    | _ => none
  if 1 ≤ parts.month ∧ parts.month ≤ 12 ∧ 1 ≤ parts.day ∧
      parts.day ≤ daysInMonth parts.year parts.month then
    some parts
  else none

/-- `Date.prototype.toISOString`. -/
def toISOString (d : DateParts) : String :=
  padZeros 4 d.year ++ "-" ++ padZeros 2 d.month ++ "-" ++ padZeros 2 d.day ++
    "T" ++ padZeros 2 d.hour ++ ":" ++ padZeros 2 d.minute ++ ":" ++
    padZeros 2 d.second ++ "." ++ padZeros 3 d.ms ++ "Z"

/-- `toISOString().split("T")[0]`. -/
def isoDatePart (d : DateParts) : String :=
  padZeros 4 d.year ++ "-" ++ padZeros 2 d.month ++ "-" ++ padZeros 2 d.day

/-- `TransformationRule` (src/src/types/index.ts): the tag is a plain
string (the `switch` has a default branch), `params` an optional object,
`function` an optional string. -/
structure TransformationRule where
  type : String
  params : Option (List (String × JSValue)) := none
  function : Option String := none
deriving DecidableEq, Repr

/-- `a ?? b`. -/
def nullish (a b : JSValue) : JSValue :=
  if a = JSValue.null ∨ a = JSValue.undef then b else a

/-- Field read on a plain JS record value (`undefined` when absent). -/
def jsGet (o : List (String × JSValue)) (k : String) : JSValue :=
  (lookupA k o).getD .undef

namespace TransformationService

/-- `applyFormatTransformation` (types/index.ts lines 303-356): table-driven
`from`/`to` conversions; unmatched pairs pass the value through. -/
def applyFormatTransformation (st : St) (value : JSValue)
    (transformation : TransformationRule) : Except String JSValue :=
  let params := transformation.params.getD []
  let fromTag := jsGet params "from"
  let toTag := jsGet params "to"
  if fromTag = .str "string" ∧ toTag = .str "number" then
    match jsParseFloat (jsToString st value) with
    | none => .error ("Cannot convert '" ++ jsToString st value ++ "' to number")
    | some n => .ok (.num n)
  else if fromTag = .str "number" ∧ toTag = .str "string" then
    .ok (.str (jsToString st value))
  else if fromTag = .str "string" ∧ toTag = .str "boolean" then
    let strValue := strToLower (jsToString st value)
    if strValue = "true" ∨ strValue = "1" ∨ strValue = "yes" ∨ strValue = "on" then
      .ok (.bool true)
    else if strValue = "false" ∨ strValue = "0" ∨ strValue = "no" ∨ strValue = "off" then
      .ok (.bool false)
    else .error ("Cannot convert '" ++ jsToString st value ++ "' to boolean")
  else if fromTag = .str "boolean" ∧ toTag = .str "string" then
    .ok (.str (if jsTruthy value then "true" else "false"))
  else if fromTag = .str "date" ∧ toTag = .str "date-time" then
    match jsDateParse (jsToString st value) with
    | none => .error ("Invalid date: " ++ jsToString st value)
    | some d => .ok (.str (toISOString d))
  else if fromTag = .str "date-time" ∧ toTag = .str "date" then
    match jsDateParse (jsToString st value) with
    | none => .error ("Invalid date-time: " ++ jsToString st value)
    | some d => .ok (.str (isoDatePart d))
  else
    .ok value

/-- `applyTransformation` (types/index.ts lines 253-298); throwing branches
become `Except.error`, `split` allocates a fresh array. -/
def applyTransformation (st : St) (value : JSValue)
    (transformation : TransformationRule) : Except String (JSValue × St) :=
  match transformation.type with
  | "direct" => .ok (value, st)
  | "format" => (applyFormatTransformation st value transformation).map (fun v => (v, st))
  | "split" =>
    match value with
    | .str s =>
      let sepRaw := jsGet (transformation.params.getD []) "separator"
      let separator := if jsTruthy sepRaw then jsToString st sepRaw else ","
      let pieces := (strSplitOn s separator).map strTrim
      let (a, st) := st.alloc (.arrCell (pieces.map JSValue.str) [])
      .ok (.ref a, st)
    | _ => .error "Split transformation requires string input"
  | "join" =>
    match value with
    | .ref a =>
      match lookupA a st.heap with
      | some (.arrCell es _) =>
        let sepRaw := jsGet (transformation.params.getD []) "separator"
        let joinSeparator := if jsTruthy sepRaw then jsToString st sepRaw else ", "
        let pieces := es.map fun e =>
          if e = JSValue.null ∨ e = JSValue.undef then "" else jsToString st e
        .ok (.str (strJoin joinSeparator pieces), st)
      | _ => .error "Join transformation requires array input"
    | _ => .error "Join transformation requires array input"
  | "lookup" =>
    let lookupTable := jsGet (transformation.params.getD []) "table"
    if jsTruthy lookupTable then
      .ok (nullish (jsIndex st lookupTable (jsToString st value)) value, st)
    else .error "Lookup transformation requires lookup table"
  | "custom" =>
    match transformation.function with
    | none => .error "Custom transformation requires function"
    | some f =>
      if f = "" then .error "Custom transformation requires function"
      else .error "Custom transformations not yet implemented"
  | _ => .ok (value, st)

/-- Walk of `getNestedValue` (types/index.ts lines 362-378): follow dot
segments; `null`/`undefined` mid-path yields `undefined`. -/
def getNestedWalk (st : St) : List String → JSValue → JSValue
  | [], current => current
  | part :: rest, current =>
    if current = JSValue.null ∨ current = JSValue.undef then .undef
    else getNestedWalk st rest (jsIndex st current part)

/-- `getNestedValue`: an empty path throws. -/
def getNestedValue (st : St) (obj : Nat) (path : String) : Except String JSValue :=
  if path = "" then .error "Field path is undefined or empty"
  else .ok (getNestedWalk st (strSplitOn path ".") (.ref obj))

/-- Descent loop of `setNestedValue`: the partial state reached before a
throw is kept, as JS mutations persist past an exception. -/
def setNestedDescend (v : JSValue) : St → JSValue → List String → St × Option String
  | st, _, [] => (st, some "empty path segments")
  | st, current, [last] =>
    match jsSetProp st current last v with
    | .ok st1 => (st1, none)
    | .error e => (st, some e)
  | st, current, part :: rest =>
    match jsHasProp st current part with
    | .error e => (st, some e)
    | .ok has =>
      if has then setNestedDescend v st (jsIndex st current part) rest
      else
        let (f, st1) := st.alloc (.obj [])
        match jsSetProp st1 current part (.ref f) with
        | .ok st2 => setNestedDescend v st2 (jsIndex st2 current part) rest
        | .error e => (st1, some e)

/-- `setNestedValue` (types/index.ts lines 384-405): walk to the parent,
creating `{}` levels for missing keys, then assign the last segment. -/
def setNestedValue (st : St) (obj : Nat) (path : String) (value : JSValue) :
    St × Option String :=
  if path = "" then (st, some "Field path is undefined or empty")
  else setNestedDescend value st (.ref obj) (strSplitOn path ".")

end TransformationService

/-- `FieldMapping` (types/index.ts lines 73-81); `description` and the type
tags are never read by `transformPayload`, the type tags are kept for the
data model. -/
structure FieldMapping where
  sourceField : String
  targetField : String
  sourceType : String := "string"
  targetType : String := "string"
  transformation : Option TransformationRule := none
  required : Bool := false
deriving DecidableEq, Repr

/-- `TransformationError` (types/index.ts lines 131-135); an absent
`originalValue` is `undefined`. -/
structure TransformationError where
  field : String
  error : String
  originalValue : JSValue := .undef
deriving DecidableEq, Repr

/-- The slice of `SchemaMapping` (types/index.ts lines 89-100) that
`transformPayload` reads. -/
structure SchemaMapping where
  id : String
  name : String
  fieldMappings : List FieldMapping
deriving DecidableEq, Repr

/-- `PayloadTransformResult` (types/index.ts lines 123-129); the payload is
the address of the result object, fields set to `undefined` in JS are
`none`. -/
structure PayloadTransformResult where
  success : Bool
  transformedPayload : Option Nat
  errors : Option (List TransformationError)
  warnings : Option (List String)
  unmappedFields : Option (List String)
deriving DecidableEq, Repr

namespace TransformationService

/-- One iteration of the `for (const fieldMapping of ...)` loop in
`transformPayload` (types/index.ts lines 175-234): at most one error is
recorded and the iteration never unwinds (inner try around the
transformation, outer try around the rest). -/
def transformStep (st : St) (src tgt : Nat) (fm : FieldMapping) :
    List TransformationError × St :=
  if fm.sourceField = "" ∨ fm.targetField = "" then
    ([{ field := fm.sourceField,
        error := "Invalid field mapping: sourceField='" ++ fm.sourceField ++
          "', targetField='" ++ fm.targetField ++
          "'. Check that the mapping was saved with valid field names." }], st)
  else
    match getNestedValue st src fm.sourceField with
    | .error e =>
      -- unreachable: `getNestedValue` only throws on the empty path, which
      -- the guard above already rejected; kept for the outer catch's shape
      ([{ field := fm.sourceField, error := "Failed to transform field: " ++ e }], st)
    | .ok value =>
      if fm.required ∧ (value = JSValue.undef ∨ value = JSValue.null) then
        ([{ field := fm.sourceField, error := "Required field is missing or null" }], st)
      else if value = JSValue.undef then ([], st)
      else
        let applied :=
          match fm.transformation with
          | none => Except.ok (value, st)
          | some tr => applyTransformation st value tr
        match applied with
        | .error e =>
          ([{ field := fm.sourceField, error := "Transformation failed: " ++ e,
              originalValue := value }], st)
        | .ok (transformedValue, st1) =>
          match setNestedValue st1 tgt fm.targetField transformedValue with
          | (st2, none) => ([], st2)
          | (st2, some e) =>
            ([{ field := fm.sourceField, error := "Failed to transform field: " ++ e,
                originalValue := ((getNestedValue st2 src fm.sourceField).toOption).getD .undef }],
              st2)

/-- The whole field-mapping loop: errors accumulate, no iteration aborts
the rest. -/
def transformLoop (st : St) (src tgt : Nat) : List FieldMapping →
    List TransformationError × St
  | [] => ([], st)
  | fm :: rest =>
    let (es, st1) := transformStep st src tgt fm
    let (es2, st2) := transformLoop st1 src tgt rest
    (es ++ es2, st2)

/-- `Object.keys` of the payload object. -/
def objKeys (st : St) (a : Nat) : List String :=
  match lookupA a st.heap with
  | some (.obj fs) => fs.map Prod.fst
  | _ => []

/-- `transformPayload` (types/index.ts lines 153-248). -/
def transformPayload (st : St) (sourcePayload : Nat) (mapping : SchemaMapping) :
    PayloadTransformResult × St :=
  let (tgt, st) := st.alloc (.obj [])
  let mappedSourceFields := mapping.fieldMappings.map (·.sourceField)
  let unmappedFields :=
    (objKeys st sourcePayload).filter (fun k => ¬ mappedSourceFields.contains k)
  let (errors, st) := transformLoop st sourcePayload tgt mapping.fieldMappings
  let warnings :=
    if unmappedFields ≠ [] then
      ["Unmapped source fields: " ++ strJoin ", " unmappedFields]
    else []
  ({ success := errors.isEmpty,
     transformedPayload := if errors.isEmpty then some tgt else none,
     errors := if errors.isEmpty then none else some errors,
     warnings := if warnings.isEmpty then none else some warnings,
     unmappedFields := if unmappedFields.isEmpty then none else some unmappedFields },
    st)

end TransformationService

/-- `DataType` (types/index.ts lines 8-16). -/
inductive DataType where
  | string | number | integer | boolean | array | object | null
deriving DecidableEq, Repr

/-- The enum's runtime string value. -/
def DataType.toJS : DataType → String
  | .string => "string"
  | .number => "number"
  | .integer => "integer"
  | .boolean => "boolean"
  | .array => "array"
  | .object => "object"
  | .null => "null"

/-- `SchemaObject` (types/index.ts lines 43-58) restricted to the fields the
embedded services read (`type`, `format`, `properties`, `items`; the
remaining optional annotations are never consulted).  An absent and an
empty `properties` bag behave identically in every embedded code path, so
both are the empty list. -/
inductive SchemaObject where
  | node (type : DataType) (format : Option String)
      (properties : List (String × SchemaObject)) (items : Option SchemaObject)

mutual

def SchemaObject.deq : (a b : SchemaObject) → Decidable (a = b)
  | .node t1 f1 p1 i1, .node t2 f2 p2 i2 =>
    match decEq t1 t2 with
    | isFalse h => isFalse (fun hh => by cases hh; exact h rfl)
    | isTrue h1 =>
      match decEq f1 f2 with
      | isFalse h => isFalse (fun hh => by cases hh; exact h rfl)
      | isTrue h2 =>
        match SchemaObject.deqList p1 p2 with
        | isFalse h => isFalse (fun hh => by cases hh; exact h rfl)
        | isTrue h3 =>
          match SchemaObject.deqOpt i1 i2 with
          | isFalse h => isFalse (fun hh => by cases hh; exact h rfl)
          | isTrue h4 => isTrue (by rw [h1, h2, h3, h4])

def SchemaObject.deqList : (a b : List (String × SchemaObject)) → Decidable (a = b)
  | [], [] => isTrue rfl
  | [], _ :: _ => isFalse (by simp)
  | _ :: _, [] => isFalse (by simp)
  | (k1, v1) :: r1, (k2, v2) :: r2 =>
    match decEq k1 k2 with
    | isFalse h => isFalse (fun hh => by cases hh; exact h rfl)
    | isTrue hk =>
      match SchemaObject.deq v1 v2 with
      | isFalse h => isFalse (fun hh => by cases hh; exact h rfl)
      | isTrue hv =>
        match SchemaObject.deqList r1 r2 with
        | isFalse h => isFalse (fun hh => by cases hh; exact h rfl)
        | isTrue hr => isTrue (by rw [hk, hv, hr])

def SchemaObject.deqOpt : (a b : Option SchemaObject) → Decidable (a = b)
  | none, none => isTrue rfl
  | none, some _ => isFalse (by simp)
  | some _, none => isFalse (by simp)
  | some x, some y =>
    match SchemaObject.deq x y with
    | isTrue h => isTrue (by rw [h])
    | isFalse h => isFalse (fun hh => by cases hh; exact h rfl)

end

instance : DecidableEq SchemaObject := SchemaObject.deq

def SchemaObject.type : SchemaObject → DataType
  | .node t _ _ _ => t

def SchemaObject.format : SchemaObject → Option String
  | .node _ f _ _ => f

def SchemaObject.properties : SchemaObject → List (String × SchemaObject)
  | .node _ _ p _ => p

def SchemaObject.items : SchemaObject → Option SchemaObject
  | .node _ _ _ i => i

/-- `FIELD_SYNONYMS` (constants.ts); `checkSynonyms` only ever reads the
value arrays (`Object.values`), the keys are kept for fidelity. -/
def FIELD_SYNONYMS : List (String × List String) :=
  [("email", ["mail", "e_mail", "email_address", "emailaddress"]),
   ("phone", ["telephone", "tel", "phone_number", "phonenumber", "mobile",
              "contact_number", "contactnumber"]),
   ("name", ["fullname", "full_name", "display_name", "displayname"]),
   ("firstName", ["first_name", "firstname", "given_name", "givenname"]),
   ("lastName", ["last_name", "lastname", "family_name", "familyname", "surname"]),
   ("street", ["address", "street_address", "streetaddress", "street1"]),
   ("city", ["location", "town"]),
   ("state", ["province", "region"]),
   ("zipCode", ["zip", "postal_code", "postalcode", "postcode"]),
   ("country", ["nation"]),
   ("birthDate", ["birth_date", "birthdate", "dob", "date_of_birth", "dateofbirth"]),
   ("companyName", ["company", "organization", "org_name", "orgname",
                    "business_name", "businessname"]),
   ("status", ["state", "condition"]),
   ("createdAt", ["created_date", "createddate", "creation_date", "created_on", "created"]),
   ("updatedAt", ["updated_date", "updateddate", "last_modified", "lastmodified",
                  "modified_at", "modifiedat"]),
   ("id", ["identifier", "uid", "unique_id", "uniqueid", "entity_id", "entityid"])]

/-- `DEFAULT_CONFIDENCE_THRESHOLD` (constants.ts). -/
def DEFAULT_CONFIDENCE_THRESHOLD : QD := 0.7

/-- `MappingSuggestion` (types/index.ts lines 115-121). -/
structure MappingSuggestion where
  confidence : QD
  sourceField : String
  targetField : String
  reasoning : String
  suggestedTransformation : Option TransformationRule
deriving DecidableEq, Repr

namespace MappingService

/-- `normalizeName` (mappingService.ts lines 105-110): lower-case, drop
`-`/`_`, drop `[]`. -/
def normalizeName (name : String) : String :=
  strReplaceAll (strReplaceAll (strReplaceAll (strToLower name) "-" "") "_" "") "[]" ""

/-- `checkSynonyms` (mappingService.ts lines 115-124): 1.0 when some
synonym group's normalized values contain both names. -/
def checkSynonyms (name1 name2 : String) : QD :=
  if FIELD_SYNONYMS.any (fun g =>
      ((g.2.map normalizeName).contains name1) ∧ ((g.2.map normalizeName).contains name2))
  then 1.0 else 0.0

/-- `calculateTypeCompatibility` (mappingService.ts lines 129-144). -/
def calculateTypeCompatibility (type1 type2 : DataType) : QD :=
  if type1 = type2 then 1.0
  else if (type1 = .number ∧ type2 = .integer) ∨ (type1 = .integer ∧ type2 = .number) then 0.7
  else if (type1 = .string ∧ type2 = .null) ∨ (type1 = .null ∧ type2 = .string) then 0.7
  else 0.0

/-- `calculateFieldSimilarity` (mappingService.ts lines 60-100): additive
score, capped at 1.0. -/
def calculateFieldSimilarity (sourceName targetName : String)
    (sourceSchema targetSchema : SchemaObject) : QD :=
  let score : QD := 0
  let score := score + (if sourceName = targetName then (0.5 : QD) else 0)
  let score := score + (if strToLower sourceName = strToLower targetName then (0.3 : QD) else 0)
  let normalizedSource := normalizeName sourceName
  let normalizedTarget := normalizeName targetName
  let score := score + (if normalizedSource = normalizedTarget then (0.2 : QD) else 0)
  let score := score + checkSynonyms normalizedSource normalizedTarget * 0.3
  let score := score +
    (if strIncludes normalizedSource normalizedTarget ∨
        strIncludes normalizedTarget normalizedSource then (0.1 : QD) else 0)
  let score := score +
    calculateTypeCompatibility sourceSchema.type targetSchema.type * 0.3
  min score 1.0

/-- `suggestTransformation` (mappingService.ts lines 149-200). -/
def suggestTransformation (sourceSchema targetSchema : SchemaObject) :
    Option TransformationRule :=
  if sourceSchema.type = targetSchema.type then
    some { type := "direct" }
  else if sourceSchema.type = .string ∧ targetSchema.type = .number then
    some { type := "format",
           params := some [("from", .str "string"), ("to", .str "number")],
           function := some "parseFloat" }
  else if sourceSchema.type = .number ∧ targetSchema.type = .string then
    some { type := "format",
           params := some [("from", .str "number"), ("to", .str "string")],
           function := some "toString" }
  else if sourceSchema.format = some "date" ∧ targetSchema.format = some "date-time" then
    some { type := "format",
           params := some [("from", .str "date"), ("to", .str "date-time")] }
  else if sourceSchema.type = .array ∧ targetSchema.type = .string then
    some { type := "join", params := some [("separator", .str ", ")] }
  else if sourceSchema.type = .string ∧ targetSchema.type = .array then
    some { type := "split", params := some [("separator", .str ",")] }
  else none

/-- `(confidence * 100).toFixed(1)` for the non-negative confidences the
scorer produces (rounding half away from zero; no claim reads the
reasoning text). -/
def toFixed1 (q : QD) : String :=
  let den := 10 ^ q.e
  let r := (q.n.toNat * 10 * 2 + den) / (2 * den)
  natToStr (r / 10) ++ "." ++ natToStr (r % 10)

/-- `generateReasoning` (mappingService.ts lines 205-234). -/
def generateReasoning (sourceField targetField : String × SchemaObject)
    (confidence : QD) : String :=
  let normalizedSource := normalizeName sourceField.1
  let normalizedTarget := normalizeName targetField.1
  let reasons : List String :=
    (if sourceField.1 = targetField.1 then ["Exact field name match"]
     else if normalizedSource = normalizedTarget then ["Field names match after normalization"]
     else []) ++
    (if sourceField.2.type = targetField.2.type then ["Same data type"]
     else ["Type conversion needed: " ++ sourceField.2.type.toJS ++ " → " ++
           targetField.2.type.toJS]) ++
    (if checkSynonyms normalizedSource normalizedTarget ≠ 0 then ["Field names are synonyms"]
     else []) ++
    ["Confidence: " ++ toFixed1 (confidence * 100) ++ "%"]
  strJoin "; " reasons

mutual

/-- `extractFields` (mappingService.ts lines 239-260): object nodes emit one
entry per property and recurse into object/array properties; array nodes
only recurse into `items` under the `<pre>[]` path (no entry is emitted for
the `items` node itself). -/
def extractFields (schema : SchemaObject) (pre : String) :
    List (String × SchemaObject) :=
  match schema with
  | .node t _ props items =>
    match t with
    | .object => extractFieldsProps props pre
    | .array =>
      match items with
      | some it => extractFields it (if pre ≠ "" then pre ++ "[]" else "[]")
      | none => []
    | _ => []

/-- The `for (const [key, prop] of Object.entries(schema.properties))`
loop. -/
def extractFieldsProps (props : List (String × SchemaObject)) (pre : String) :
    List (String × SchemaObject) :=
  match props with
  | [] => []
  | (key, prop) :: rest =>
    let fieldPath := if pre ≠ "" then pre ++ "." ++ key else key
    ((fieldPath, prop) ::
      (if prop.type = .object ∨ prop.type = .array then extractFields prop fieldPath
       else [])) ++ extractFieldsProps rest pre

end

/-- The comparator `(a, b) => b.confidence - a.confidence`: `a` sorts no
later than `b` when `b.confidence ≤ a.confidence`. -/
def sortsBefore (a b : MappingSuggestion) : Prop :=
  b.confidence ≤ a.confidence

instance : DecidableRel sortsBefore := fun a b =>
  inferInstanceAs (Decidable (b.confidence ≤ a.confidence))

/-- `suggestMappings` (mappingService.ts lines 17-55): full cross product,
threshold filter, stable sort by confidence descending (JS `Array.sort` is
stable, so any stable sorting algorithm — insertion sort here — produces
its exact output). -/
def suggestMappings (sourceSchema targetSchema : SchemaObject)
    (confidenceThreshold : QD := DEFAULT_CONFIDENCE_THRESHOLD) :
    List MappingSuggestion :=
  let sourceFields := extractFields sourceSchema ""
  let targetFields := extractFields targetSchema ""
  let suggestions := sourceFields.flatMap fun sourceField =>
    targetFields.filterMap fun targetField =>
      let confidence :=
        calculateFieldSimilarity sourceField.1 targetField.1 sourceField.2 targetField.2
      if confidenceThreshold ≤ confidence then
        some { confidence
               sourceField := sourceField.1
               targetField := targetField.1
               reasoning := generateReasoning sourceField targetField confidence
               suggestedTransformation := suggestTransformation sourceField.2 targetField.2 }
      else none
  suggestions.insertionSort sortsBefore

end MappingService

namespace SchemaService

mutual

/-- `getFieldPaths` (schemaService.ts lines 197-216): object nodes emit one
path per property and recurse into object/array properties; array nodes
emit `<pre>[]` for the `items` node and recurse into it. -/
def getFieldPaths (schema : SchemaObject) (pre : String) : List String :=
  match schema with
  | .node t _ props items =>
    match t with
    | .object => getFieldPathsProps props pre
    | .array =>
      match items with
      | some it =>
        let arrayPath := if pre ≠ "" then pre ++ "[]" else "[]"
        arrayPath :: getFieldPaths it arrayPath
      | none => []
    | _ => []

def getFieldPathsProps (props : List (String × SchemaObject)) (pre : String) :
    List String :=
  match props with
  | [] => []
  | (key, prop) :: rest =>
    let fieldPath := if pre ≠ "" then pre ++ "." ++ key else key
    (fieldPath ::
      (if prop.type = .object ∨ prop.type = .array then getFieldPaths prop fieldPath
       else [])) ++ getFieldPathsProps rest pre

end

end SchemaService

/-- A field correspondence as the raw JS object handed to the repository:
an insertion-ordered key/value record (keys in either naming convention,
possibly with extra keys such as `description`). -/
abbrev RawFM := List (String × JSValue)

/-- The runtime shape of a `SchemaMapping` document as the repository sees
it: every field a raw JS value, `fieldMappings` `some` exactly when the
value is an array (`Array.isArray`).  `validationRules`/`metadata` are
touched by neither check nor normalization and are omitted. -/
structure MappingDoc where
  id : JSValue
  name : JSValue
  description : JSValue := .undef
  sourceEndpoint : JSValue
  targetEndpoint : JSValue
  fieldMappings : Option (List RawFM)
  createdAt : JSValue := .undef
  updatedAt : JSValue := .undef
deriving DecidableEq, Repr

/-- A JSON value appearing as an entry of an imported collection: a JSON
object is a `doc` (absent fields read as `undefined`), anything else is
`nonObj`. -/
inductive RawDoc where
  | nonObj (v : JSValue)
  | doc (m : MappingDoc)
deriving DecidableEq, Repr

/-- The in-memory mapping store: configuration id → document, insertion
ordered (`StoredMapping`, types/index.ts lines 137-139). -/
abbrev Store := List (String × MappingDoc)

/-- JS property-key coercion of the value used as `mappings[mapping.id]`
(ref values would stringify through their cells; the repository never
dereferences them, so they are rendered opaquely). -/
def jsKeyString : JSValue → String
  | .str s => s
  | .num n => jsNumToString n
  | .bool true => "true"
  | .bool false => "false"
  | .null => "null"
  | .undef => "undefined"
  | .ref _ => "[object Object]"

/-- The repository's process-wide state: the in-memory store, the lazy
one-shot loading flag, the read-only-medium flag, and the durable image
(kept already parsed — the abstract load/save contract). -/
structure StorageState where
  storage : Store := []
  initialized : Bool := false
  fileSystemWritable : Bool := true
  file : Option Store := none
deriving DecidableEq, Repr

/-- Result of one attempted write to the durable store, an input of the
environment: success, or a thrown error with its message. -/
inductive FsOutcome where
  | ok
  | err (msg : String)
deriving DecidableEq, Repr

namespace StorageService

/-- `initialize` (storageService.ts lines 28-46): run once; load the
durable image or start empty. -/
def initializeStore (st : StorageState) : StorageState :=
  if st.initialized then st
  else { st with initialized := true, storage := st.file.getD [] }

/-- `loadMappings` (lines 51-54). -/
def loadMappings (st : StorageState) : Store × StorageState :=
  let st1 := initializeStore st
  (st1.storage, st1)

/-- `saveMappings` (lines 59-85): the in-memory cache is always updated;
a write failure only logs (EROFS flips the writable flag), it never fails
the call.  The returned strings are the `console.warn` output. -/
def saveMappings (st : StorageState) (mappings : Store) (io : FsOutcome) :
    StorageState × List String :=
  let st1 := { st with storage := mappings }
  if ¬ st1.fileSystemWritable then (st1, [])
  else
    match io with
    | .ok => ({ st1 with file := some mappings }, [])
    | .err msg =>
      if strIncludes msg "EROFS" ∨ strIncludes msg "read-only" then
        ({ st1 with fileSystemWritable := false },
         ["⚠ File system is read-only, mappings stored in memory only"])
      else
        (st1, ["⚠ Warning: Could not save mappings to file: " ++ msg])

/-- `getMapping` (lines 90-93): `mappings[id] || null` (stored documents
are objects, hence truthy). -/
def getMapping (st : StorageState) (id : String) : Option MappingDoc × StorageState :=
  let (mappings, st1) := loadMappings st
  (lookupA id mappings, st1)

/-- `normalizeFieldMapping` (lines 100-110): canonicalize to camelCase and
build a record with exactly these seven keys. -/
def normalizeFieldMapping (fm : RawFM) : RawFM :=
  [("sourceField", nullish (jsGet fm "sourceField") (jsGet fm "source_field")),
   ("targetField", nullish (jsGet fm "targetField") (jsGet fm "target_field")),
   ("transformation", nullish (jsGet fm "transformation") JSValue.null),
   ("confidence", nullish (jsGet fm "confidence") JSValue.null),
   ("required", nullish (jsGet fm "required") (JSValue.bool false)),
   ("sourceType", nullish (nullish (jsGet fm "sourceType") (jsGet fm "source_type")) JSValue.undef),
   ("targetType", nullish (nullish (jsGet fm "targetType") (jsGet fm "target_type")) JSValue.undef)]

/-- Normalize a document's correspondence list when it is an array. -/
def normalizeDoc (m : MappingDoc) : MappingDoc :=
  match m.fieldMappings with
  | some fms => { m with fieldMappings := some (fms.map normalizeFieldMapping) }
  | none => m

/-- `saveMapping` (lines 116-133): normalize the correspondences, refresh
`updatedAt`, set `createdAt` once, store under the document's id — with no
structural validation. -/
def saveMapping (st : StorageState) (mapping : MappingDoc) (now : String)
    (io : FsOutcome) : StorageState × List String :=
  let (mappings, st1) := loadMappings st
  let mapping := normalizeDoc mapping
  let mapping := { mapping with updatedAt := .str now }
  let mapping :=
    if ¬ jsTruthy mapping.createdAt then { mapping with createdAt := mapping.updatedAt }
    else mapping
  saveMappings st1 (objSet mappings (jsKeyString mapping.id) mapping) io

/-- `validateMappingStructure` (lines 252-274): string `id` and `name`,
truthy endpoints, an array of correspondences each with a truthy source and
target path in either naming convention. -/
def validateMappingStructure (mapping : RawDoc) : Bool :=
  match mapping with
  | .nonObj _ => false
  | .doc m =>
    (match m.id with | .str _ => true | _ => false) &&
    (match m.name with | .str _ => true | _ => false) &&
    jsTruthy m.sourceEndpoint && jsTruthy m.targetEndpoint &&
    m.fieldMappings.isSome &&
    (m.fieldMappings.getD []).all (fun fm =>
      jsTruthy (nullish (jsGet fm "sourceField") (jsGet fm "source_field")) &&
      jsTruthy (nullish (jsGet fm "targetField") (jsGet fm "target_field")))

/-- The parsed argument of `importMappings`: a JSON.parse failure, a parsed
non-object, or an object's entries. -/
inductive ImportInput where
  | malformed (msg : String)
  | nonObject (v : JSValue)
  | entries (l : List (String × RawDoc))

/-- The `for (const [id, mapping] of Object.entries(data))` loop of
`importMappings`: invalid entries are counted and skipped, the rest are
normalized and stored; no entry aborts the batch. -/
def importLoop : Store → Nat → List String → List (String × RawDoc) →
    Store × Nat × List String
  | mappings, imported, errors, [] => (mappings, imported, errors)
  | mappings, imported, errors, (id, raw) :: rest =>
    if validateMappingStructure raw then
      match raw with
      | .doc m => importLoop (objSet mappings id (normalizeDoc m)) (imported + 1) errors rest
      | .nonObj _ =>   -- dead branch: validation rejects every non-object
        importLoop mappings imported (errors ++ ["Invalid mapping structure for ID: " ++ id]) rest
    else
      importLoop mappings imported (errors ++ ["Invalid mapping structure for ID: " ++ id]) rest

/-- `importMappings` (lines 202-245). -/
def importMappings (st : StorageState) (json : ImportInput) (io : FsOutcome) :
    (Nat × List String) × StorageState :=
  match json with
  | .malformed msg => ((0, ["Failed to parse JSON: " ++ msg]), st)
  | .nonObject _ => ((0, ["Failed to parse JSON: Invalid JSON format"]), st)
  | .entries l =>
    let (mappings, st1) := loadMappings st
    let (mappings2, imported, errors) := importLoop mappings 0 [] l
    let (st2, _warn) := saveMappings st1 mappings2 io
    ((imported, errors), st2)

end StorageService

/-! ### Order facts for `QD` and the sort relation -/

theorem pow10_pos (e : Nat) : 0 < pow10 e := by
  unfold pow10
  exact Int.ofNat_pos.mpr (pow_pos (by norm_num : (0 : Nat) < 10) e)

theorem qd_le_refl (a : QD) : a ≤ a :=
  Int.le_refl (a.n * pow10 a.e)

theorem qd_le_total (a b : QD) : a ≤ b ∨ b ≤ a :=
  Int.le_total (a.n * pow10 b.e) (b.n * pow10 a.e)

theorem qd_le_trans {a b c : QD} (h1 : a ≤ b) (h2 : b ≤ c) : a ≤ c := by
  have hb := pow10_pos b.e
  have h3 : a.n * pow10 b.e * pow10 c.e ≤ b.n * pow10 a.e * pow10 c.e :=
    mul_le_mul_of_nonneg_right h1 (pow10_pos c.e).le
  have h4 : b.n * pow10 c.e * pow10 a.e ≤ c.n * pow10 b.e * pow10 a.e :=
    mul_le_mul_of_nonneg_right h2 (pow10_pos a.e).le
  have h5 : a.n * pow10 c.e * pow10 b.e ≤ c.n * pow10 a.e * pow10 b.e := by nlinarith
  exact (mul_le_mul_right hb).mp h5

theorem qd_min_le_right (a b : QD) : min a b ≤ b := by
  show (if a ≤ b then a else b) ≤ b
  by_cases h : a ≤ b
  · rw [if_pos h]; exact h
  · rw [if_neg h]; exact qd_le_refl b

instance : IsTotal MappingSuggestion MappingService.sortsBefore :=
  ⟨fun a b => qd_le_total b.confidence a.confidence⟩

instance : IsTrans MappingSuggestion MappingService.sortsBefore :=
  ⟨fun _ _ _ h1 h2 => qd_le_trans h2 h1⟩

theorem listIsPrefix_self (l : List Char) : listIsPrefix l l = true := by
  induction l with
  | nil => rfl
  | cons c rest ih => simp [listIsPrefix, ih]

theorem listIsInfix_self (l : List Char) : listIsInfix l l = true := by
  cases l with
  | nil => rfl
  | cons c rest => simp [listIsInfix, listIsPrefix_self]

theorem strIncludes_self (s : String) : strIncludes s s = true :=
  listIsInfix_self s.toList

/-- `checkSynonyms` only returns 1.0 or 0.0. -/
theorem checkSynonyms_cases (x y : String) :
    MappingService.checkSynonyms x y = 1.0 ∨ MappingService.checkSynonyms x y = 0.0 := by
  unfold MappingService.checkSynonyms
  split
  · exact Or.inl rfl
  · exact Or.inr rfl

/-- The capped similarity score never exceeds 1. -/
theorem calculateFieldSimilarity_le_one (a b : String) (s t : SchemaObject) :
    MappingService.calculateFieldSimilarity a b s t ≤ 1 := by
  unfold MappingService.calculateFieldSimilarity
  exact qd_min_le_right _ _

/-- Equal names and equal declared types force the capped score to 1. -/
theorem calculateFieldSimilarity_self (p : String) (s t : SchemaObject)
    (h : s.type = t.type) :
    MappingService.calculateFieldSimilarity p p s t = 1 := by
  unfold MappingService.calculateFieldSimilarity MappingService.calculateTypeCompatibility
  rw [h]
  simp only [eq_self_iff_true, if_true, strIncludes_self, true_or, ite_true]
  rcases checkSynonyms_cases (MappingService.normalizeName p)
      (MappingService.normalizeName p) with hs | hs <;>
    rw [hs] <;> decide

/-! ### Shared sample data for witnesses and counterexamples -/

def sampleStringNode : SchemaObject := .node .string none [] none

def sampleArrayOfString : SchemaObject := .node .array none [] (some sampleStringNode)

def sampleNameObject : SchemaObject := .node .object none [("name", sampleStringNode)] none

/-- The `format` rule `string → number` exactly as `suggestTransformation`
builds it. -/
def fmtStringToNumber : TransformationRule :=
  { type := "format",
    params := some [("from", .str "string"), ("to", .str "number")],
    function := some "parseFloat" }

/-- A payload `{"amount": v}` on a fresh heap. -/
def amountPayload (v : String) : St :=
  ⟨[(0, .obj [("amount", .str v)])], 1⟩

/-- One correspondence `amount → total` with the string→number format rule. -/
def amountToTotalMapping : SchemaMapping :=
  ⟨"m", "amount to total",
   [{ sourceField := "amount", targetField := "total",
      transformation := some fmtStringToNumber }]⟩

/-- Modelled from the spec's words for C2 ("the entire string parses as a
number"): the exponent tail after `e`/`E` must be a signed non-empty digit
run reaching the end. -/
def specExpTail (r : List Char) : Bool :=
  let r2 := match r with
    | '+' :: x => x
    | '-' :: x => x
    | _ => r
  r2 ≠ [] ∧ r2.all Char.isDigit

/-- Modelled from the spec's words for C2: the whole string is one decimal
literal (optional sign; digits with optional point; optional exponent; or
`Infinity`) with no surplus characters.  Used only to state the claim; the
code's own behaviour is `jsParseFloat`. -/
def specFullNumericLiteral (s : String) : Bool :=
  let cs := s.toList
  let cs1 := match cs with
    | '-' :: r => r
    | '+' :: r => r
    | _ => cs
  if cs1 = "Infinity".toList then true
  else
    let intD := cs1.takeWhile Char.isDigit
    let cs2 := cs1.drop intD.length
    let fracD := match cs2 with
      | '.' :: r => r.takeWhile Char.isDigit
      | _ => []
    let cs3 := match cs2 with
      | '.' :: r => r.drop fracD.length
      | _ => cs2
    if intD = [] ∧ fracD = [] then false
    else
      match cs3 with
      | [] => true
      | 'e' :: r => specExpTail r
      | 'E' :: r => specExpTail r
      | _ => false

/-- `String(v)` of a string primitive is itself, whatever the fuel. -/
theorem jsToStringFuel_str (h : Heap) (fuel : Nat) (s : String) :
    jsToStringFuel h fuel (.str s) = s := by
  cases fuel <;> rfl

/-! ### C3 -/

/-- C3, counterexample: on an array-of-string schema node,
`MappingService.extractFields` emits no entry at all — the claimed
`("[]", items)` entry is produced only by `SchemaService.getFieldPaths`. -/
theorem c3_counterexample :
    sampleArrayOfString.type = DataType.array ∧
    sampleArrayOfString.items = some sampleStringNode ∧
    ("[]", sampleStringNode) ∉ MappingService.extractFields sampleArrayOfString "" ∧
    MappingService.extractFields sampleArrayOfString "" = [] ∧
    SchemaService.getFieldPaths sampleArrayOfString "" = ["[]"] := by
  refine ⟨rfl, rfl, ?_, by decide, by decide⟩
  intro hmem
  simp [MappingService.extractFields] at hmem

/-- C3 (amended): for an array node with an items node,
`SchemaService.getFieldPaths` emits one entry at `<pre>[]` and recurses
into the items node; `MappingService.extractFields` emits no entry for the
items node itself — it only recurses into it at path `<pre>[]` (so an
array of scalars contributes no entries there). -/
theorem c3_array_extraction (s it : SchemaObject) (pre : String)
    (htype : s.type = DataType.array) (hitems : s.items = some it) :
    SchemaService.getFieldPaths s pre =
      (if pre ≠ "" then pre ++ "[]" else "[]") ::
        SchemaService.getFieldPaths it (if pre ≠ "" then pre ++ "[]" else "[]") ∧
    MappingService.extractFields s pre =
      MappingService.extractFields it (if pre ≠ "" then pre ++ "[]" else "[]") := by
  cases s with
  | node t f props items =>
    simp only [SchemaObject.type] at htype
    simp only [SchemaObject.items] at hitems
    subst htype; subst hitems
    constructor
    · simp [SchemaService.getFieldPaths]
    · simp [MappingService.extractFields]

/-- C3 amended-claim witness at a concrete array-of-string node. -/
theorem c3_array_extraction_witness :
    SchemaService.getFieldPaths sampleArrayOfString "" =
      "[]" :: SchemaService.getFieldPaths sampleStringNode "[]" ∧
    MappingService.extractFields sampleArrayOfString "" =
      MappingService.extractFields sampleStringNode "[]" := by
  simpa using c3_array_extraction sampleArrayOfString sampleStringNode "" rfl rfl

/-! ### C2 -/

/-- C2, counterexample: the claim demands that the rule errors unless the
entire string parses as a number, but `parseFloat` accepts the longest
numeric prefix — on `"42abc"` the rule succeeds with 42 although the whole
string is no numeric literal. -/
theorem c2_counterexample :
    TransformationService.applyFormatTransformation ⟨[], 0⟩ (.str "42abc") fmtStringToNumber =
      .ok (.num (.fin 42)) ∧
    specFullNumericLiteral "42abc" = false := by
  constructor
  · decide
  · decide

/-- C2 (amended): for a string input the `string → number` format rule
returns exactly `parseFloat`'s longest-numeric-prefix value and errors
precisely when no numeric prefix exists (NaN) — a full-string parse is not
required.  The claim's two scenarios hold: `{"amount":"42.5"}` targeting
`total` yields `{"total": 42.5}` with success, `{"amount":"abc"}` yields
`success = false` with one error citing field `amount`. -/
theorem c2_format_string_to_number :
    (∀ (st : St) (s : String),
      TransformationService.applyFormatTransformation st (.str s) fmtStringToNumber =
        match jsParseFloat s with
        | none => .error ("Cannot convert '" ++ s ++ "' to number")
        | some n => .ok (.num n)) ∧
    ((TransformationService.transformPayload (amountPayload "42.5") 0 amountToTotalMapping).1.success = true ∧
      (TransformationService.transformPayload (amountPayload "42.5") 0 amountToTotalMapping).1.transformedPayload = some 1 ∧
      lookupA 1 (TransformationService.transformPayload (amountPayload "42.5") 0 amountToTotalMapping).2.heap =
        some (.obj [("total", .num (.fin (42.5 : QD)))])) ∧
    ((TransformationService.transformPayload (amountPayload "abc") 0 amountToTotalMapping).1.success = false ∧
      (TransformationService.transformPayload (amountPayload "abc") 0 amountToTotalMapping).1.errors =
        some [{ field := "amount",
                error := "Transformation failed: Cannot convert 'abc' to number",
                originalValue := .str "abc" }]) := by
  exact ⟨fun _ _ => rfl, ⟨by decide, by decide, by decide⟩, ⟨by decide, by decide⟩⟩

/-! ### C1 -/

/-- C1: for every payload and configuration, `transformPayload` reports
`success = true` exactly when no per-field error was recorded, the
`transformedPayload` field is present exactly on success (no partial output
object), and the correspondence loop never aborts: processing `l1 ++ l2`
first processes `l1`, then still processes all of `l2` from the state `l1`
left behind, appending the error lists. -/
theorem c1_transform_result_boundary :
    ∀ (st : St) (src : Nat) (mapping : SchemaMapping),
      (((TransformationService.transformPayload st src mapping).1.success = true) ↔
        (TransformationService.transformPayload st src mapping).1.errors = none) ∧
      ((TransformationService.transformPayload st src mapping).1.transformedPayload.isSome ↔
        (TransformationService.transformPayload st src mapping).1.success = true) ∧
      (∀ (st2 : St) (s t : Nat) (l1 l2 : List FieldMapping),
        TransformationService.transformLoop st2 s t (l1 ++ l2) =
          ((TransformationService.transformLoop st2 s t l1).1 ++
            (TransformationService.transformLoop
              (TransformationService.transformLoop st2 s t l1).2 s t l2).1,
           (TransformationService.transformLoop
             (TransformationService.transformLoop st2 s t l1).2 s t l2).2)) := by
  intro st src mapping
  refine ⟨?_, ?_, ?_⟩
  · unfold TransformationService.transformPayload
    by_cases h :
        (TransformationService.transformLoop
          (st.alloc (.obj [])).2 src (st.alloc (.obj [])).1 mapping.fieldMappings).1.isEmpty
    · simp [h]
    · simp [h]
  · unfold TransformationService.transformPayload
    by_cases h :
        (TransformationService.transformLoop
          (st.alloc (.obj [])).2 src (st.alloc (.obj [])).1 mapping.fieldMappings).1.isEmpty
    · simp [h]
    · simp [h]
  · intro st2 s t l1 l2
    induction l1 generalizing st2 with
    | nil => simp [TransformationService.transformLoop]
    | cons fm rest ih =>
      simp only [List.cons_append, TransformationService.transformLoop, List.append_eq]
      rw [ih]
      simp [List.append_assoc]

/-! ### C5 and C6 -/

/-- C5: every source/target field pair with identical names (paths) and
equal declared types yields, at the default threshold, a suggestion with
confidence at least 0.8 (in fact 1) and a `direct` transformation. -/
theorem c5_identical_fields_direct (src tgt : SchemaObject) (p : String)
    (s t : SchemaObject)
    (hs : (p, s) ∈ MappingService.extractFields src "")
    (ht : (p, t) ∈ MappingService.extractFields tgt "")
    (hty : s.type = t.type) :
    ∃ sug ∈ MappingService.suggestMappings src tgt DEFAULT_CONFIDENCE_THRESHOLD,
      sug.sourceField = p ∧ sug.targetField = p ∧ (0.8 : QD) ≤ sug.confidence ∧
      sug.suggestedTransformation = some { type := "direct" } := by
  have hconf := calculateFieldSimilarity_self p s t hty
  refine ⟨{ confidence := MappingService.calculateFieldSimilarity p p s t
            sourceField := p
            targetField := p
            reasoning := MappingService.generateReasoning (p, s) (p, t)
              (MappingService.calculateFieldSimilarity p p s t)
            suggestedTransformation := MappingService.suggestTransformation s t },
    ?_, rfl, rfl, ?_, ?_⟩
  · unfold MappingService.suggestMappings
    refine (List.perm_insertionSort MappingService.sortsBefore _).mem_iff.mpr ?_
    refine List.mem_flatMap.mpr ⟨(p, s), hs, List.mem_filterMap.mpr ⟨(p, t), ht, ?_⟩⟩
    rw [hconf, if_pos (by decide : DEFAULT_CONFIDENCE_THRESHOLD ≤ (1 : QD))]
  · show (0.8 : QD) ≤ MappingService.calculateFieldSimilarity p p s t
    rw [hconf]; decide
  · show MappingService.suggestTransformation s t = _
    unfold MappingService.suggestTransformation
    rw [if_pos hty]

/-- C5 witness: two copies of `{name: string}` produce the promised
suggestion. -/
theorem c5_identical_fields_direct_witness :
    ∃ sug ∈ MappingService.suggestMappings sampleNameObject sampleNameObject
        DEFAULT_CONFIDENCE_THRESHOLD,
      sug.sourceField = "name" ∧ sug.targetField = "name" ∧
      (0.8 : QD) ≤ sug.confidence ∧
      sug.suggestedTransformation = some { type := "direct" } :=
  c5_identical_fields_direct sampleNameObject sampleNameObject "name"
    sampleStringNode sampleStringNode (by decide) (by decide) rfl

/-- C6: every returned suggestion's confidence lies between the threshold
and 1 (so pairs scoring below the threshold are absent), and the sequence
is sorted by confidence in non-increasing order. -/
theorem c6_suggestions_bounded_sorted (src tgt : SchemaObject) (θ : QD) :
    (∀ sug ∈ MappingService.suggestMappings src tgt θ,
      θ ≤ sug.confidence ∧ sug.confidence ≤ 1) ∧
    List.Sorted MappingService.sortsBefore (MappingService.suggestMappings src tgt θ) := by
  constructor
  · intro sug hmem
    unfold MappingService.suggestMappings at hmem
    have hmem2 := (List.perm_insertionSort MappingService.sortsBefore _).mem_iff.mp hmem
    rcases List.mem_flatMap.mp hmem2 with ⟨sf, _, hin⟩
    rcases List.mem_filterMap.mp hin with ⟨tf, _, heq⟩
    by_cases hc : θ ≤ MappingService.calculateFieldSimilarity sf.1 tf.1 sf.2 tf.2
    · rw [if_pos hc] at heq
      have hsug := Option.some.inj heq
      constructor
      · rw [← hsug]; exact hc
      · rw [← hsug]; exact calculateFieldSimilarity_le_one sf.1 tf.1 sf.2 tf.2
    · rw [if_neg hc] at heq
      exact absurd heq (by simp)
  · unfold MappingService.suggestMappings
    exact List.sorted_insertionSort MappingService.sortsBefore _

/-- The one suggestion of the `{name: string}` self-comparison. -/
def c6SampleSuggestion : MappingSuggestion :=
  { confidence := 1
    sourceField := "name"
    targetField := "name"
    reasoning := "Exact field name match; Same data type; Confidence: 100.0%"
    suggestedTransformation := some { type := "direct" } }

/-- C6 witness at a concrete schema pair and threshold. -/
theorem c6_suggestions_bounded_sorted_witness :
    ((0.7 : QD) ≤ c6SampleSuggestion.confidence ∧ c6SampleSuggestion.confidence ≤ 1) ∧
    List.Sorted MappingService.sortsBefore
      (MappingService.suggestMappings sampleNameObject sampleNameObject (0.7 : QD)) :=
  ⟨(c6_suggestions_bounded_sorted sampleNameObject sampleNameObject (0.7 : QD)).1
      c6SampleSuggestion
      (by
        have h : MappingService.suggestMappings sampleNameObject sampleNameObject (0.7 : QD) =
            [c6SampleSuggestion] := by decide
        rw [h]; exact List.mem_singleton.mpr rfl),
   (c6_suggestions_bounded_sorted sampleNameObject sampleNameObject (0.7 : QD)).2⟩

/-! ### Heap-frame infrastructure for C9 -/

theorem lookupA_mem {α β : Type} [DecidableEq α] {l : List (α × β)} {k : α} {v : β}
    (h : lookupA k l = some v) : (k, v) ∈ l := by
  induction l with
  | nil => simp [lookupA] at h
  | cons p rest ih =>
    obtain ⟨k1, v1⟩ := p
    unfold lookupA at h
    split at h
    · cases h
      subst_eqs
      exact List.mem_cons_self _ _
    · exact List.mem_cons_of_mem _ (ih h)

theorem lookupA_objSet_self {α β : Type} [DecidableEq α] (l : List (α × β)) (k : α) (v : β) :
    lookupA k (objSet l k v) = some v := by
  induction l with
  | nil => simp [objSet, lookupA]
  | cons p rest ih =>
    obtain ⟨k1, v1⟩ := p
    unfold objSet
    by_cases hk : k1 = k
    · rw [if_pos hk]
      simp [lookupA]
    · rw [if_neg hk]
      unfold lookupA
      rw [if_neg hk]
      exact ih

theorem lookupA_objSet_ne {α β : Type} [DecidableEq α] (l : List (α × β)) (k k2 : α) (v : β)
    (h : k2 ≠ k) : lookupA k2 (objSet l k v) = lookupA k2 l := by
  have h2 : k ≠ k2 := Ne.symm h
  induction l with
  | nil => simp [objSet, lookupA, h2]
  | cons p rest ih =>
    obtain ⟨k1, v1⟩ := p
    by_cases hk : k1 = k
    · subst hk
      simp [objSet, lookupA, h2]
    · by_cases hk2 : k1 = k2
      · subst hk2
        simp [objSet, lookupA, hk]
      · simp [objSet, lookupA, hk, hk2, ih]

/-- `jsSetProp` on an object reference leaves the allocation counter and
every other address unchanged. -/
theorem jsSetProp_ref_frame {st : St} {t : Nat} {key : String} {v : JSValue} {st2 : St}
    (h : jsSetProp st (.ref t) key v = .ok st2) :
    st2.next = st.next ∧
    ∀ a c, a ≠ t → lookupA a st.heap = some c → lookupA a st2.heap = some c := by
  simp only [jsSetProp] at h
  split at h
  · cases h
    exact ⟨rfl, fun a c ha hc => by
      show lookupA a (heapSet st.heap t _) = some c
      rw [heapSet, lookupA_objSet_ne _ _ _ _ ha]; exact hc⟩
  · split at h
    · split at h
      · split at h
        · cases h
          exact ⟨rfl, fun a c ha hc => by
            show lookupA a (heapSet st.heap t _) = some c
            rw [heapSet, lookupA_objSet_ne _ _ _ _ ha]; exact hc⟩
        · cases h
      · cases h
    · split at h
      · cases h
        exact ⟨rfl, fun a c ha hc => by
          show lookupA a (heapSet st.heap t _) = some c
          rw [heapSet, lookupA_objSet_ne _ _ _ _ ha]; exact hc⟩
      · cases h
        exact ⟨rfl, fun a c ha hc => by
          show lookupA a (heapSet st.heap t _) = some c
          rw [heapSet, lookupA_objSet_ne _ _ _ _ ha]; exact hc⟩
  · cases h
    exact ⟨rfl, fun _ _ _ hc => hc⟩

/-- `applyTransformation` only ever allocates: the counter grows and every
existing cell keeps its contents. -/
theorem applyTransformation_mono {st : St} {v : JSValue} {tr : TransformationRule}
    {v2 : JSValue} {st2 : St}
    (h : TransformationService.applyTransformation st v tr = .ok (v2, st2)) :
    st.next ≤ st2.next ∧
    ∀ a c, a < st.next → lookupA a st.heap = some c → lookupA a st2.heap = some c := by
  simp only [TransformationService.applyTransformation] at h
  split at h
  · cases h
    exact ⟨Nat.le_refl _, fun _ _ _ hc => hc⟩
  · rcases hm : TransformationService.applyFormatTransformation st v tr with e | v3 <;> rw [hm] at h
    · simp [Except.map] at h
    · simp only [Except.map] at h
      cases h
      exact ⟨Nat.le_refl _, fun _ _ _ hc => hc⟩
  · split at h
    · cases h
      refine ⟨Nat.le_succ _, fun a c ha hc => ?_⟩
      show lookupA a ((st.next, _) :: st.heap) = some c
      unfold lookupA
      rw [if_neg (by omega : ¬ st.next = a)]
      exact hc
    · cases h
  · repeat' split at h
    all_goals first
      | (cases h; exact ⟨Nat.le_refl _, fun _ _ _ hc => hc⟩)
      | cases h
  · repeat' split at h
    all_goals first
      | (cases h; exact ⟨Nat.le_refl _, fun _ _ _ hc => hc⟩)
      | cases h
  · repeat' split at h
    all_goals cases h
  · cases h
    exact ⟨Nat.le_refl _, fun _ _ _ hc => hc⟩

/-- A single-segment `setNestedValue` writes only at the target address. -/
theorem setNestedValue_single_frame {st1 : St} {t : Nat} {path : String} {v : JSValue}
    {st2 : St} {r : Option String}
    (hs : (strSplitOn path ".").length = 1)
    (h : TransformationService.setNestedValue st1 t path v = (st2, r)) :
    st2.next = st1.next ∧
    ∀ a c, a ≠ t → lookupA a st1.heap = some c → lookupA a st2.heap = some c := by
  unfold TransformationService.setNestedValue at h
  by_cases hp : path = ""
  · rw [if_pos hp] at h
    cases h
    exact ⟨rfl, fun _ _ _ hc => hc⟩
  · rw [if_neg hp] at h
    rcases hsplit : strSplitOn path "." with _ | ⟨seg, rest⟩
    · rw [hsplit] at hs; simp at hs
    · rcases rest with _ | ⟨s2, r2⟩
      · rw [hsplit] at h
        simp only [TransformationService.setNestedDescend] at h
        rcases hsp : jsSetProp st1 (.ref t) seg v with e | stp <;> rw [hsp] at h
        · cases h
          exact ⟨rfl, fun _ _ _ hc => hc⟩
        · cases h
          have hf := jsSetProp_ref_frame hsp
          exact ⟨hf.1, hf.2⟩
      · rw [hsplit] at hs; simp at hs

/-- One loop iteration with a single-segment target path can only allocate
and write at the output address `t`. -/
theorem transformStep_frame (st : St) (src t : Nat) (fm : FieldMapping)
    (hsingle : (strSplitOn fm.targetField ".").length = 1) :
    st.next ≤ (TransformationService.transformStep st src t fm).2.next ∧
    ∀ a c, a < st.next → a ≠ t → lookupA a st.heap = some c →
      lookupA a (TransformationService.transformStep st src t fm).2.heap = some c := by
  rcases hstep : TransformationService.transformStep st src t fm with ⟨es, stf⟩
  simp only
  simp only [TransformationService.transformStep] at hstep
  split at hstep
  · cases hstep
    exact ⟨Nat.le_refl _, fun _ _ _ _ hc => hc⟩
  · split at hstep
    · cases hstep
      exact ⟨Nat.le_refl _, fun _ _ _ _ hc => hc⟩
    · split at hstep
      · cases hstep
        exact ⟨Nat.le_refl _, fun _ _ _ _ hc => hc⟩
      · split at hstep
        · cases hstep
          exact ⟨Nat.le_refl _, fun _ _ _ _ hc => hc⟩
        · rename_i value _ _
          split at hstep
          · cases hstep
            exact ⟨Nat.le_refl _, fun _ _ _ _ hc => hc⟩
          · rename_i tv st1 heq
            have hmono : st.next ≤ st1.next ∧
                ∀ a c, a < st.next → lookupA a st.heap = some c →
                  lookupA a st1.heap = some c := by
              rcases htr : fm.transformation with _ | tr <;> rw [htr] at heq
              · cases heq
                exact ⟨Nat.le_refl _, fun _ _ _ hc => hc⟩
              · exact applyTransformation_mono heq
            split at hstep
            · rename_i st2 hset
              cases hstep
              have hf := setNestedValue_single_frame hsingle hset
              refine ⟨hf.1 ▸ hmono.1, fun a c ha hat hc => ?_⟩
              exact hf.2 a c hat (hmono.2 a c ha hc)
            · rename_i st2 e hset
              cases hstep
              have hf := setNestedValue_single_frame hsingle hset
              refine ⟨hf.1 ▸ hmono.1, fun a c ha hat hc => ?_⟩
              exact hf.2 a c hat (hmono.2 a c ha hc)

/-- The whole loop, under single-segment target paths, can only allocate
and write at the output address `t`. -/
theorem transformLoop_frame (fms : List FieldMapping) (st : St) (src t : Nat)
    (hsingle : ∀ fm ∈ fms, (strSplitOn fm.targetField ".").length = 1) :
    st.next ≤ (TransformationService.transformLoop st src t fms).2.next ∧
    ∀ a c, a < st.next → a ≠ t → lookupA a st.heap = some c →
      lookupA a (TransformationService.transformLoop st src t fms).2.heap = some c := by
  induction fms generalizing st with
  | nil =>
    simp only [TransformationService.transformLoop]
    exact ⟨Nat.le_refl _, fun _ _ _ _ hc => hc⟩
  | cons fm rest ih =>
    rcases hstep : TransformationService.transformStep st src t fm with ⟨es, st1⟩
    rcases hloop : TransformationService.transformLoop st1 src t rest with ⟨es2, st2⟩
    have h1 := transformStep_frame st src t fm (hsingle fm (List.mem_cons_self _ _))
    rw [hstep] at h1
    have h2 := ih st1 (fun f hf => hsingle f (List.mem_cons_of_mem _ hf))
    rw [hloop] at h2
    have hL : TransformationService.transformLoop st src t (fm :: rest) = (es ++ es2, st2) := by
      simp [TransformationService.transformLoop, hstep, hloop]
    rw [hL]
    refine ⟨Nat.le_trans h1.1 h2.1, fun a c ha hat hc => ?_⟩
    exact h2.2 a c (Nat.lt_of_lt_of_le ha h1.1) hat (h1.2 a c ha hat hc)

/-! ### C9 -/

/-- A payload whose `a` key aliases a nested object and whose second
correspondence writes through it. -/
def c9SourceState : St :=
  ⟨[(0, .obj [("a", .ref 1), ("c", .num (.fin 2))]),
    (1, .obj [("b", .num (.fin 1))])], 2⟩

def c9AliasMapping : SchemaMapping :=
  ⟨"m9", "alias",
   [{ sourceField := "a", targetField := "x" },
    { sourceField := "c", targetField := "x.d" }]⟩

/-- C9, counterexample: the run copies the source object `a` by reference
into the output at `x`, and the later write to `x.d` descends into that
shared object — mutating the input payload (`{"a":{"b":1},"c":2}` becomes
`{"a":{"b":1,"d":2},"c":2}`) even though the run succeeds. -/
theorem c9_counterexample :
    lookupA 1 c9SourceState.heap = some (.obj [("b", .num (.fin 1))]) ∧
    (TransformationService.transformPayload c9SourceState 0 c9AliasMapping).1.success = true ∧
    lookupA 1 (TransformationService.transformPayload c9SourceState 0 c9AliasMapping).2.heap =
      some (.obj [("b", .num (.fin 1)), ("d", .num (.fin 2))]) := by
  decide

/-- C9 (amended): all writes go into a freshly allocated output object, and
when every correspondence's target path is a single segment the input
payload — every cell of the initial heap, hence everything reachable from
the source object — is left unchanged by the run.  (With multi-segment
target paths a value copied by reference from the source into the output
can be written through, mutating the input: see the counterexample.) -/
theorem c9_input_payload_frame (st : St) (src : Nat) (mapping : SchemaMapping)
    (hwf : st.WF)
    (hsingle : ∀ fm ∈ mapping.fieldMappings, (strSplitOn fm.targetField ".").length = 1) :
    ∀ a c, lookupA a st.heap = some c →
      lookupA a (TransformationService.transformPayload st src mapping).2.heap = some c := by
  intro a c hc
  have ha : a < st.next := hwf (a, c) (lookupA_mem hc)
  have halloc : lookupA a ((st.next, HeapCell.obj []) :: st.heap) = some c := by
    unfold lookupA
    rw [if_neg (by omega : ¬ st.next = a)]
    exact hc
  have hloop := transformLoop_frame mapping.fieldMappings
    ⟨(st.next, .obj []) :: st.heap, st.next + 1⟩ src st.next hsingle
  rcases hl2 : TransformationService.transformLoop
      ⟨(st.next, .obj []) :: st.heap, st.next + 1⟩ src st.next mapping.fieldMappings
    with ⟨es, stf⟩
  rw [hl2] at hloop
  have hfinal : (TransformationService.transformPayload st src mapping).2 = stf := by
    simp [TransformationService.transformPayload, St.alloc, hl2]
  rw [hfinal]
  exact hloop.2 a c (by show a < st.next + 1; omega) (by omega) halloc

/-- Scenario-A payload and mapping (single-segment target). -/
def c9ScenarioState : St := ⟨[(0, .obj [("FirstName", .str "Jane")])], 1⟩

def c9ScenarioMapping : SchemaMapping :=
  ⟨"a", "scenario",
   [{ sourceField := "FirstName", targetField := "first_name", required := true }]⟩

/-- C9 amended-claim witness: the concrete single-segment run leaves the
input object untouched. -/
theorem c9_input_payload_frame_witness :
    lookupA 0 (TransformationService.transformPayload c9ScenarioState 0
        c9ScenarioMapping).2.heap =
      some (.obj [("FirstName", .str "Jane")]) :=
  c9_input_payload_frame c9ScenarioState 0 c9ScenarioMapping (by decide) (by decide)
    0 (.obj [("FirstName", .str "Jane")]) (by decide)

/-! ### Storage lemmas -/

namespace StorageService

/-- The document `saveMapping` actually stores: correspondences
normalized, `updatedAt` refreshed, `createdAt` set once. -/
def savedForm (mapping : MappingDoc) (now : String) : MappingDoc :=
  let m1 := normalizeDoc mapping
  let m2 := { m1 with updatedAt := JSValue.str now }
  if ¬ jsTruthy m2.createdAt then { m2 with createdAt := m2.updatedAt } else m2

end StorageService

theorem normalizeDoc_id (doc : MappingDoc) :
    (StorageService.normalizeDoc doc).id = doc.id := by
  unfold StorageService.normalizeDoc
  rcases doc.fieldMappings with _ | fms <;> rfl

theorem savedForm_id (doc : MappingDoc) (now : String) :
    (StorageService.savedForm doc now).id = doc.id := by
  unfold StorageService.savedForm
  dsimp only
  split
  · exact normalizeDoc_id doc
  · exact normalizeDoc_id doc

theorem savedForm_fieldMappings (doc : MappingDoc) (now : String) :
    (StorageService.savedForm doc now).fieldMappings =
      (StorageService.normalizeDoc doc).fieldMappings := by
  unfold StorageService.savedForm
  dsimp only
  split <;> rfl

theorem initializeStore_initialized (st : StorageState) :
    (StorageService.initializeStore st).initialized = true := by
  unfold StorageService.initializeStore
  split
  · rename_i h; exact h
  · rfl

theorem saveMappings_storage (st : StorageState) (m : Store) (io : FsOutcome) :
    (StorageService.saveMappings st m io).1.storage = m := by
  rcases io with _ | msg <;> (unfold StorageService.saveMappings; dsimp only)
  · split <;> rfl
  · split
    · rfl
    · split <;> rfl

theorem saveMappings_initialized (st : StorageState) (m : Store) (io : FsOutcome) :
    (StorageService.saveMappings st m io).1.initialized = st.initialized := by
  rcases io with _ | msg <;> (unfold StorageService.saveMappings; dsimp only)
  · split <;> rfl
  · split
    · rfl
    · split <;> rfl

theorem saveMappings_file (st : StorageState) (m : Store) (io : FsOutcome) :
    (StorageService.saveMappings st m io).1.file = st.file ∨
    (StorageService.saveMappings st m io).1.file = some m := by
  rcases io with _ | msg <;> (unfold StorageService.saveMappings; dsimp only)
  · split
    · exact Or.inl rfl
    · exact Or.inr rfl
  · split
    · exact Or.inl rfl
    · split <;> exact Or.inl rfl

theorem getMapping_of_initialized (st : StorageState) (id : String)
    (h : st.initialized = true) :
    (StorageService.getMapping st id).1 = lookupA id st.storage := by
  unfold StorageService.getMapping StorageService.loadMappings StorageService.initializeStore
  simp [h]

/-- What `saveMapping` makes of the in-memory store, whatever the durable
write does. -/
theorem saveMapping_storage (st : StorageState) (doc : MappingDoc) (now : String)
    (io : FsOutcome) :
    (StorageService.saveMapping st doc now io).1.storage =
      objSet (StorageService.initializeStore st).storage (jsKeyString doc.id)
        (StorageService.savedForm doc now) ∧
    (StorageService.saveMapping st doc now io).1.initialized = true := by
  have hform : StorageService.saveMapping st doc now io =
      StorageService.saveMappings (StorageService.initializeStore st)
        (objSet (StorageService.initializeStore st).storage
          (jsKeyString (StorageService.savedForm doc now).id)
          (StorageService.savedForm doc now)) io := rfl
  rw [hform, savedForm_id]
  exact ⟨saveMappings_storage _ _ _, by
    rw [saveMappings_initialized]
    exact initializeStore_initialized st⟩

/-! ### C7 -/

/-- C7: saving a configuration with one snake_case-keyed and one
camelCase-keyed correspondence stores both in canonical camelCase form:
after the save, `getMapping` returns them with the values under
`sourceField`/`targetField`, `required` defaulted to `false`, and
`transformation`/`confidence` defaulted to `null`. -/
theorem c7_save_canonicalizes (st : StorageState) (io : FsOutcome) (now : String)
    (idv namev descv se te ca ua : JSValue) (sf tf sf2 tf2 : String) :
    ∃ m2 n1 n2,
      (StorageService.getMapping
          (StorageService.saveMapping st
            { id := idv, name := namev, description := descv,
              sourceEndpoint := se, targetEndpoint := te,
              fieldMappings := some
                [[("source_field", .str sf), ("target_field", .str tf)],
                 [("sourceField", .str sf2), ("targetField", .str tf2)]],
              createdAt := ca, updatedAt := ua } now io).1 (jsKeyString idv)).1 = some m2 ∧
      m2.fieldMappings = some [n1, n2] ∧
      jsGet n1 "sourceField" = .str sf ∧ jsGet n1 "targetField" = .str tf ∧
      jsGet n2 "sourceField" = .str sf2 ∧ jsGet n2 "targetField" = .str tf2 ∧
      jsGet n1 "required" = .bool false ∧ jsGet n2 "required" = .bool false ∧
      jsGet n1 "transformation" = .null ∧ jsGet n2 "transformation" = .null ∧
      jsGet n1 "confidence" = .null ∧ jsGet n2 "confidence" = .null := by
  set doc : MappingDoc :=
    { id := idv, name := namev, description := descv,
      sourceEndpoint := se, targetEndpoint := te,
      fieldMappings := some
        [[("source_field", .str sf), ("target_field", .str tf)],
         [("sourceField", .str sf2), ("targetField", .str tf2)]],
      createdAt := ca, updatedAt := ua } with hdoc
  have hs := saveMapping_storage st doc now io
  refine ⟨StorageService.savedForm doc now,
    StorageService.normalizeFieldMapping [("source_field", .str sf), ("target_field", .str tf)],
    StorageService.normalizeFieldMapping [("sourceField", .str sf2), ("targetField", .str tf2)],
    ?_, ?_, rfl, rfl, rfl, rfl, rfl, rfl, rfl, rfl, rfl, rfl⟩
  · rw [getMapping_of_initialized _ _ hs.2, hs.1]
    have : jsKeyString idv = jsKeyString doc.id := by rw [hdoc]
    rw [this, lookupA_objSet_self]
  · rw [savedForm_fieldMappings]
    rw [hdoc]
    rfl

/-! ### C8 -/

/-- C8: when the durable store's write throws, `saveMapping` still
completes (it returns a state and warning text, never a failure), the
in-memory image is updated, and a subsequent `getMapping` in the same
process returns the just-saved configuration from that image. -/
theorem c8_write_failure_keeps_memory (st : StorageState) (doc : MappingDoc)
    (now msg : String) :
    (StorageService.getMapping
        (StorageService.saveMapping st doc now (.err msg)).1 (jsKeyString doc.id)).1 =
      some (StorageService.savedForm doc now) ∧
    (StorageService.saveMapping st doc now (.err msg)).1.storage =
      objSet (StorageService.initializeStore st).storage (jsKeyString doc.id)
        (StorageService.savedForm doc now) := by
  have hs := saveMapping_storage st doc now (.err msg)
  refine ⟨?_, hs.1⟩
  rw [getMapping_of_initialized _ _ hs.2, hs.1, lookupA_objSet_self]

/-! ### C4 -/

/-- A document failing the structural checks (no name, no endpoints, a
correspondence without field paths). -/
def c4BadDoc : MappingDoc :=
  { id := .str "m2", name := .undef, sourceEndpoint := .undef, targetEndpoint := .undef,
    fieldMappings := some [[("foo", .str "x")]] }

/-- What `saveMapping` stores for `c4BadDoc`: still structurally invalid
(unpopulated field paths). -/
def c4StoredBad : MappingDoc :=
  { id := .str "m2", name := .undef, sourceEndpoint := .undef, targetEndpoint := .undef,
    fieldMappings := some
      [[("sourceField", .undef), ("targetField", .undef), ("transformation", .null),
        ("confidence", .null), ("required", .bool false), ("sourceType", .undef),
        ("targetType", .undef)]],
    createdAt := .str "T0", updatedAt := .str "T0" }

/-- A structurally "valid" document with empty-string id and name. -/
def c4EmptyIdDoc : MappingDoc :=
  { id := .str "", name := .str "", sourceEndpoint := .bool true, targetEndpoint := .bool true,
    fieldMappings := some [[("sourceField", .str "a"), ("targetField", .str "b")]] }

/-- C4, counterexample: `saveMapping` performs no structural validation —
it stores a configuration with no name, no endpoints and a correspondence
whose field paths are unpopulated; and `importMappings` accepts a
configuration whose id and name are empty strings (the string-type check
does not require non-emptiness). -/
theorem c4_counterexample :
    (lookupA "m2" (StorageService.saveMapping {} c4BadDoc "T0" .ok).1.storage =
        some c4StoredBad ∧
      StorageService.validateMappingStructure (.doc c4StoredBad) = false ∧
      jsTruthy c4StoredBad.name = false ∧
      jsGet ((c4StoredBad.fieldMappings.getD []).getD 0 []) "sourceField" = .undef) ∧
    ((StorageService.importMappings {} (.entries [("", .doc c4EmptyIdDoc)]) .ok).1.1 = 1 ∧
      lookupA "" (StorageService.importMappings {}
          (.entries [("", .doc c4EmptyIdDoc)]) .ok).2.storage =
        some (StorageService.normalizeDoc c4EmptyIdDoc) ∧
      (StorageService.normalizeDoc c4EmptyIdDoc).id = .str "") := by
  decide

/-- Every document the import loop adds was validated and normalized. -/
theorem importLoop_lookup (l : List (String × RawDoc)) :
    ∀ (mappings : Store) (imported : Nat) (errs : List String) (id : String) (m2 : MappingDoc),
      lookupA id (StorageService.importLoop mappings imported errs l).1 = some m2 →
      lookupA id mappings = some m2 ∨
      ∃ m, (id, RawDoc.doc m) ∈ l ∧
        StorageService.validateMappingStructure (.doc m) = true ∧
        m2 = StorageService.normalizeDoc m := by
  induction l with
  | nil => intro mappings imported errs id m2 h; exact Or.inl h
  | cons p rest ih =>
    intro mappings imported errs id m2 h
    obtain ⟨id0, raw⟩ := p
    unfold StorageService.importLoop at h
    split at h
    · rename_i hv
      split at h
      · rename_i m
        rcases ih _ _ _ _ _ h with h1 | ⟨m3, hmem, hval, hm⟩
        · by_cases hid : id = id0
          · subst hid
            rw [lookupA_objSet_self] at h1
            exact Or.inr ⟨m, List.mem_cons_self _ _, hv,
              (Option.some.inj h1).symm⟩
          · rw [lookupA_objSet_ne _ _ _ _ hid] at h1
            exact Or.inl h1
        · exact Or.inr ⟨m3, List.mem_cons_of_mem _ hmem, hval, hm⟩
      · rcases ih _ _ _ _ _ h with h1 | ⟨m3, hmem, hval, hm⟩
        · exact Or.inl h1
        · exact Or.inr ⟨m3, List.mem_cons_of_mem _ hmem, hval, hm⟩
    · rcases ih _ _ _ _ _ h with h1 | ⟨m3, hmem, hval, hm⟩
      · exact Or.inl h1
      · exact Or.inr ⟨m3, List.mem_cons_of_mem _ hmem, hval, hm⟩

/-- The import loop never aborts: processing `l1 ++ l2` first processes
`l1`, then still processes all of `l2` from the store, count and error
list `l1` left behind — whatever entries of `l1` failed validation. -/
theorem importLoop_append (l1 l2 : List (String × RawDoc)) :
    ∀ (mappings : Store) (imported : Nat) (errs : List String),
      StorageService.importLoop mappings imported errs (l1 ++ l2) =
        StorageService.importLoop
          (StorageService.importLoop mappings imported errs l1).1
          (StorageService.importLoop mappings imported errs l1).2.1
          (StorageService.importLoop mappings imported errs l1).2.2 l2 := by
  induction l1 with
  | nil => intro mappings imported errs; rfl
  | cons p rest ih =>
    intro mappings imported errs
    obtain ⟨id0, raw⟩ := p
    by_cases hv : StorageService.validateMappingStructure raw = true
    · rcases raw with m | v
      · simp only [List.cons_append, StorageService.importLoop, if_pos hv]
        exact ih _ _ _
      · simp only [List.cons_append, StorageService.importLoop, if_pos hv]
        exact ih _ _ _
    · simp only [List.cons_append, StorageService.importLoop, if_neg hv]
      exact ih _ _ _

/-- C4 (amended): a configuration enters the store through import only
after passing `validateMappingStructure` (string-typed id and name —
emptiness allowed —, truthy endpoints, an array of correspondences each
with a truthy source and target path in either naming convention, hence
populated after normalization); a failing entry is rejected as a unit —
store and imported count untouched, one error recorded — and the loop
continues with the remaining entries, so rejection never aborts the
batch (`l1 ++ l2` continues into `l2` from `l1`'s final state); a
configuration entering through save is normalized, timestamped and
stored with no structural validation at all. -/
theorem c4_validation_boundary :
    (∀ (st : StorageState) (l : List (String × RawDoc)) (io : FsOutcome)
        (id : String) (m2 : MappingDoc),
      lookupA id (StorageService.importMappings st (.entries l) io).2.storage = some m2 →
      lookupA id (StorageService.initializeStore st).storage = some m2 ∨
      ∃ m, (id, RawDoc.doc m) ∈ l ∧
        StorageService.validateMappingStructure (.doc m) = true ∧
        m2 = StorageService.normalizeDoc m) ∧
    (∀ (mappings : Store) (imported : Nat) (errs : List String) (id : String)
        (raw : RawDoc) (rest : List (String × RawDoc)),
      StorageService.validateMappingStructure raw = false →
      StorageService.importLoop mappings imported errs ((id, raw) :: rest) =
        StorageService.importLoop mappings imported
          (errs ++ ["Invalid mapping structure for ID: " ++ id]) rest) ∧
    (∀ (mappings : Store) (imported : Nat) (errs : List String)
        (l1 l2 : List (String × RawDoc)),
      StorageService.importLoop mappings imported errs (l1 ++ l2) =
        StorageService.importLoop
          (StorageService.importLoop mappings imported errs l1).1
          (StorageService.importLoop mappings imported errs l1).2.1
          (StorageService.importLoop mappings imported errs l1).2.2 l2) ∧
    (∀ (st : StorageState) (doc : MappingDoc) (now : String) (io : FsOutcome),
      (StorageService.saveMapping st doc now io).1.storage =
        objSet (StorageService.initializeStore st).storage (jsKeyString doc.id)
          (StorageService.savedForm doc now)) := by
  refine ⟨?_, ?_, ?_, ?_⟩
  · intro st l io id m2 h
    have hst : (StorageService.importMappings st (.entries l) io).2.storage =
        (StorageService.importLoop (StorageService.initializeStore st).storage 0 [] l).1 := by
      rcases hil : StorageService.importLoop (StorageService.initializeStore st).storage 0 [] l
        with ⟨ms, imp, errs⟩
      simp [StorageService.importMappings, StorageService.loadMappings, hil,
        saveMappings_storage]
    rw [hst] at h
    exact importLoop_lookup l _ _ _ _ _ h
  · intro mappings imported errs id raw rest hv
    simp only [StorageService.importLoop,
      if_neg fun h => absurd (hv ▸ h) Bool.false_ne_true]
  · intro mappings imported errs l1 l2
    exact importLoop_append l1 l2 mappings imported errs
  · intro st doc now io
    exact (saveMapping_storage st doc now io).1

/-- A valid document used by the C4 witness. -/
def c4GoodDoc : MappingDoc :=
  { id := .str "g", name := .str "good", sourceEndpoint := .bool true,
    targetEndpoint := .bool true,
    fieldMappings := some [[("sourceField", .str "a"), ("targetField", .str "b")]] }

/-- C4 amended-claim witness: importing one valid document at an empty
state, its stored form is its validated normalization. -/
theorem c4_validation_boundary_witness :
    lookupA "g" (StorageService.initializeStore ({} : StorageState)).storage =
        some (StorageService.normalizeDoc c4GoodDoc) ∨
      ∃ m, ("g", RawDoc.doc m) ∈ [("g", RawDoc.doc c4GoodDoc)] ∧
        StorageService.validateMappingStructure (.doc m) = true ∧
        StorageService.normalizeDoc c4GoodDoc = StorageService.normalizeDoc m :=
  c4_validation_boundary.1 {} [("g", RawDoc.doc c4GoodDoc)] .ok "g"
    (StorageService.normalizeDoc c4GoodDoc) (by decide)

/-! ### C10 -/

/-- The exact key set of a normalized correspondence, in creation order. -/
def NORMALIZED_KEYS : List String :=
  ["sourceField", "targetField", "transformation", "confidence", "required",
   "sourceType", "targetType"]

/-- Every correspondence of the document carries exactly the normalized
keys. -/
def NormalizedDoc (d : MappingDoc) : Prop :=
  ∀ fm ∈ d.fieldMappings.getD [], fm.map Prod.fst = NORMALIZED_KEYS

/-- Every document of the store is normalized. -/
def NormalizedStore (s : Store) : Prop :=
  ∀ p ∈ s, NormalizedDoc p.2

/-- Both the in-memory image and the durable image are normalized. -/
def NormalizedState (st : StorageState) : Prop :=
  NormalizedStore st.storage ∧ ∀ s, st.file = some s → NormalizedStore s

theorem normalizeDoc_normalized (m : MappingDoc) :
    NormalizedDoc (StorageService.normalizeDoc m) := by
  unfold NormalizedDoc StorageService.normalizeDoc
  rcases h : m.fieldMappings with _ | fms
  · simp [h]
  · simp only [Option.getD_some]
    intro fm hfm
    rcases List.mem_map.mp hfm with ⟨pre, _, hpre⟩
    rw [← hpre]
    rfl

theorem savedForm_normalized (doc : MappingDoc) (now : String) :
    NormalizedDoc (StorageService.savedForm doc now) := by
  unfold NormalizedDoc
  rw [savedForm_fieldMappings]
  exact normalizeDoc_normalized doc

theorem objSet_mem {α β : Type} [DecidableEq α] {l : List (α × β)} {k : α} {v : β}
    {p : α × β} (h : p ∈ objSet l k v) : p ∈ l ∨ p = (k, v) := by
  induction l with
  | nil => simp [objSet] at h; exact Or.inr h
  | cons q rest ih =>
    obtain ⟨k1, v1⟩ := q
    unfold objSet at h
    split at h
    · rcases List.mem_cons.mp h with h1 | h1
      · exact Or.inr h1
      · exact Or.inl (List.mem_cons_of_mem _ h1)
    · rcases List.mem_cons.mp h with h1 | h1
      · exact Or.inl (h1 ▸ List.mem_cons_self _ _)
      · rcases ih h1 with h2 | h2
        · exact Or.inl (List.mem_cons_of_mem _ h2)
        · exact Or.inr h2

theorem NormalizedStore_objSet {s : Store} {k : String} {d : MappingDoc}
    (hs : NormalizedStore s) (hd : NormalizedDoc d) :
    NormalizedStore (objSet s k d) := by
  intro p hp
  rcases objSet_mem hp with h | h
  · exact hs p h
  · rw [h]
    exact hd

theorem initializeStore_normalized {st : StorageState} (h : NormalizedState st) :
    NormalizedState (StorageService.initializeStore st) := by
  unfold StorageService.initializeStore
  split
  · exact h
  · refine ⟨?_, h.2⟩
    show NormalizedStore (st.file.getD [])
    rcases hf : st.file with _ | s
    · intro p hp; simp at hp
    · exact h.2 s hf

theorem saveMappings_normalized {st : StorageState} {m : Store} (io : FsOutcome)
    (h : NormalizedState st) (hm : NormalizedStore m) :
    NormalizedState (StorageService.saveMappings st m io).1 := by
  refine ⟨by rw [saveMappings_storage]; exact hm, ?_⟩
  rcases saveMappings_file st m io with hf | hf
  · rw [hf]; exact h.2
  · rw [hf]
    intro s hs
    cases hs
    exact hm

theorem importLoop_normalized (l : List (String × RawDoc)) :
    ∀ (mappings : Store) (imported : Nat) (errs : List String),
      NormalizedStore mappings →
      NormalizedStore (StorageService.importLoop mappings imported errs l).1 := by
  induction l with
  | nil => intro mappings imported errs h; exact h
  | cons p rest ih =>
    intro mappings imported errs h
    obtain ⟨id0, raw⟩ := p
    unfold StorageService.importLoop
    split
    · split
      · exact ih _ _ _ (NormalizedStore_objSet h (normalizeDoc_normalized _))
      · exact ih _ _ _ h
    · exact ih _ _ _ h

/-- C10: a normalized correspondence consists of exactly the seven keys
`sourceField, targetField, transformation, confidence, required,
sourceType, targetType` — any other supplied key, `description` included,
is dropped and not retrievable — and both save and import preserve the
store-wide invariant that every held correspondence has exactly these
keys. -/
theorem c10_normalized_store_invariant :
    (∀ fm : RawFM,
      (StorageService.normalizeFieldMapping fm).map Prod.fst = NORMALIZED_KEYS ∧
      lookupA "description" (StorageService.normalizeFieldMapping fm) = none) ∧
    (∀ (st : StorageState) (doc : MappingDoc) (now : String) (io : FsOutcome),
      NormalizedState st →
      NormalizedState (StorageService.saveMapping st doc now io).1) ∧
    (∀ (st : StorageState) (input : StorageService.ImportInput) (io : FsOutcome),
      NormalizedState st →
      NormalizedState (StorageService.importMappings st input io).2) := by
  refine ⟨fun fm => ⟨rfl, rfl⟩, ?_, ?_⟩
  · intro st doc now io h
    have hform : StorageService.saveMapping st doc now io =
        StorageService.saveMappings (StorageService.initializeStore st)
          (objSet (StorageService.initializeStore st).storage
            (jsKeyString (StorageService.savedForm doc now).id)
            (StorageService.savedForm doc now)) io := rfl
    rw [hform]
    exact saveMappings_normalized io (initializeStore_normalized h)
      (NormalizedStore_objSet (initializeStore_normalized h).1
        (savedForm_normalized doc now))
  · intro st input io h
    rcases input with msg | v | l
    · exact h
    · exact h
    · have hini := initializeStore_normalized h
      have hloop := importLoop_normalized l (StorageService.initializeStore st).storage 0 [] hini.1
      rcases hil : StorageService.importLoop (StorageService.initializeStore st).storage 0 [] l
        with ⟨ms, imp, errs⟩
      rw [hil] at hloop
      have hst : (StorageService.importMappings st (.entries l) io).2 =
          (StorageService.saveMappings (StorageService.initializeStore st) ms io).1 := by
        simp [StorageService.importMappings, StorageService.loadMappings, hil]
      rw [hst]
      exact saveMappings_normalized io hini hloop

/-- C10 witness: saving a document into the empty state keeps the store
normalized. -/
theorem c10_normalized_store_invariant_witness :
    NormalizedState (StorageService.saveMapping {} c4GoodDoc "T0" .ok).1 :=
  c10_normalized_store_invariant.2.1 {} c4GoodDoc "T0" .ok
    ⟨fun p hp => absurd hp (List.not_mem_nil p), fun _ hs => by cases hs⟩
